import Mathlib

/-!
Shallow embedding of the ContextWarV4 Solidity contract
(src/contracts/ContextWarV4.sol).

Modelling conventions:
* amounts, timestamps and addresses are `Nat`; `address(0)` is the literal `0`;
* Solidity 0.8 checked arithmetic: every subtraction the source could revert
  on (panic) is guarded by an explicit check returning `Err.Underflow`;
  unsigned division is `Nat` division, matching EVM semantics;
* a reverting call is an `Except.error`: the error carries no state, which is
  exactly EVM rollback (no partial mutation survives a revert);
* outgoing payouts are recorded in a `Transfer` list; an `Env` records which
  recipients accept low-level ether sends (`ethOk`) and which ERC20
  `safeTransfer` calls succeed (`usdcOk` — a failing `safeTransfer` reverts
  the whole call, while a failing ether send is parked in `unclaimedEth`);
* the trailing USDC deposit inside `bid` is assumed to succeed — a failing
  deposit reverts the whole bid, which the `Except` error already models;
* mappings are total functions updated pointwise; the fixed 12-slot array is
  a function `Nat → WordSlot` of which the contract only ever touches the
  indices below `NUM_SLOTS`.
-/

namespace ContextWar

/-- One of the 12 word slots: word bytes, owner address (0 = none), and the
highest cumulative total reached on the slot this round. -/
structure WordSlot where
  word : List Nat
  owner : Nat
  highestTotal : Nat
deriving Repr, DecidableEq, Inhabited

/-- The `Round` struct of the source. -/
structure Round where
  id : Nat
  createdAt : Nat
  startedAt : Nat
  endTime : Nat
  prizePool : Nat
  ethPrizePool : Nat
  resolved : Bool
deriving Repr, DecidableEq, Inhabited

/-- The revert reasons of the source, plus `NotOwner` (the `onlyOwner`
modifier), `EnforcedPause` (the `whenNotPaused` modifier), `TransferFailed`
(a reverting ERC20 `safeTransfer`) and `Underflow` (checked arithmetic). -/
inductive Err where
  | NoActiveRound
  | RoundNotActive
  | RoundStillActive
  | RoundAlreadyResolved
  | PreviousRoundNotResolved
  | RoundNotStarted
  | RoundEnded
  | InvalidSlot
  | BidTooLow
  | WordTooLong
  | WordEmpty
  | WordContainsSpace
  | SlotCapReached
  | NotOracle
  | AllocationMismatch
  | RakeTooHigh
  | SplitTooHigh
  | EmptyPrizePool
  | EmergencyNotReady
  | NeedMorePlayers
  | HasMultiplePlayers
  | NothingToClaim
  | InvalidSlotCap
  | NotOwner
  | EnforcedPause
  | TransferFailed
  | Underflow
deriving Repr, DecidableEq

/-- Contract storage. -/
structure State where
  owner : Nat
  oracleAddress : Nat
  minBid : Nat
  roundDuration : Nat
  rakeBps : Nat
  splitBps : Nat
  maxSlotsPerPlayer : Nat
  accumulatedRake : Nat
  nextPrizePool : Nat
  pendingEth : Nat
  paused : Bool
  currentRound : Round
  slots : Nat → WordSlot
  cumulativeBids : Nat → Nat → Nat → Nat
  totalSpent : Nat → Nat → Nat
  playerSlotCount : Nat → Nat → Nat
  roundPlayers : Nat → List Nat
  isPlayer : Nat → Nat → Bool
  unclaimedEth : Nat → Nat

def NUM_SLOTS : Nat := 12

def MAX_WORD_LENGTH : Nat := 22

def ANTI_SNIPE_WINDOW : Nat := 60

def ANTI_SNIPE_EXTENSION : Nat := 60

def EMERGENCY_TIMEOUT : Nat := 86400

def MIN_AUTO_START : Nat := 1000000

/-- Pointwise update of a one-key mapping. -/
def upd1 (f : Nat → Nat) (k v : Nat) : Nat → Nat :=
  fun x => if x = k then v else f x

/-- Pointwise update of a two-key mapping. -/
def upd2 (f : Nat → Nat → Nat) (k1 k2 v : Nat) : Nat → Nat → Nat :=
  fun x y => if x = k1 ∧ y = k2 then v else f x y

/-- Pointwise update of a three-key mapping. -/
def upd3 (f : Nat → Nat → Nat → Nat) (k1 k2 k3 v : Nat) : Nat → Nat → Nat → Nat :=
  fun x y z => if x = k1 ∧ y = k2 ∧ z = k3 then v else f x y z

/-- Pointwise update of a list-valued mapping. -/
def updL (f : Nat → List Nat) (k : Nat) (v : List Nat) : Nat → List Nat :=
  fun x => if x = k then v else f x

/-- Pointwise update of a boolean mapping. -/
def updB (f : Nat → Nat → Bool) (k1 k2 : Nat) (v : Bool) : Nat → Nat → Bool :=
  fun x y => if x = k1 ∧ y = k2 then v else f x y

/-- Pointwise update of the slot array. -/
def updS (f : Nat → WordSlot) (k : Nat) (v : WordSlot) : Nat → WordSlot :=
  fun x => if x = k then v else f x

/-- Currencies moved by the contract. -/
inductive Currency where
  | usdc
  | eth
deriving Repr, DecidableEq

/-- One outgoing payment. -/
structure Transfer where
  recipient : Nat
  currency : Currency
  amount : Nat
deriving Repr, DecidableEq

/-- Which recipients can receive each currency. -/
structure Env where
  usdcOk : Nat → Bool
  ethOk : Nat → Bool

/-- Environment in which every transfer succeeds. -/
def allOk : Env := ⟨fun _ => true, fun _ => true⟩

/-- Total amount of a currency paid in a transfer list. -/
def sumPaid : List Transfer → Currency → Nat
  | [], _ => 0
  | t :: ts, c => (if t.currency = c then t.amount else 0) + sumPaid ts c

/-- Total amount of a currency paid to one recipient in a transfer list. -/
def paidTo : List Transfer → Currency → Nat → Nat
  | [], _, _ => 0
  | t :: ts, c, a => (if t.currency = c ∧ t.recipient = a then t.amount else 0) + paidTo ts c a

/-- Ether owed to one recipient by a payout triple list. -/
def ethOwedTo (a : Nat) : List (Nat × Nat × Nat) → Nat
  | [] => 0
  | (w, _, ea) :: rest => (if w = a then ea else 0) + ethOwedTo a rest

/-- Ether destined for one recipient that a payout run parks as unclaimed
because the recipient rejects the send. -/
def failedEthTo (env : Env) (a : Nat) : List (Nat × Nat × Nat) → Nat
  | [] => 0
  | (w, _, ea) :: rest =>
    (if w = a ∧ 0 < ea ∧ env.ethOk w = false then ea else 0) + failedEthTo env a rest

/-- The `roundOpen` and `whenNotPaused` modifiers plus the input checks at the
top of `bid`, in source order. -/
def bidChecks (st : State) (now slotIndex : Nat) (word : List Nat) (amount : Nat) : Option Err :=
  if st.currentRound.id = 0 then some .NoActiveRound
  else if st.currentRound.resolved then some .RoundAlreadyResolved
  else if 0 < st.currentRound.startedAt ∧ st.currentRound.endTime ≤ now then some .RoundNotActive
  else if st.paused then some .EnforcedPause
  else if NUM_SLOTS ≤ slotIndex then some .InvalidSlot
  else if amount < st.minBid then some .BidTooLow
  else if word.length = 0 then some .WordEmpty
  else if MAX_WORD_LENGTH < word.length then some .WordTooLong
  else if word.any (fun b => b == 32) then some .WordContainsSpace
  else none

/-- Start the clock on the first bid of a round. -/
def bidStart (st : State) (now : Nat) : State :=
  if st.currentRound.startedAt = 0 then
    { st with currentRound :=
        { st.currentRound with startedAt := now, endTime := now + st.roundDuration } }
  else st

/-- Anti-snipe: extend the round when the bid lands in the last minute. -/
def bidSnipe (st : State) (now : Nat) : State :=
  if st.currentRound.endTime - now ≤ ANTI_SNIPE_WINDOW then
    { st with currentRound :=
        { st.currentRound with endTime := st.currentRound.endTime + ANTI_SNIPE_EXTENSION } }
  else st

/-- Cumulative-bid bookkeeping, pot split and player registration. -/
def bidLedger (st : State) (r sender slotIndex amount newCum : Nat) : State :=
  let st1 := { st with
    cumulativeBids := upd3 st.cumulativeBids r slotIndex sender newCum,
    totalSpent := upd2 st.totalSpent r sender (st.totalSpent r sender + amount) }
  let toCurrentPot := amount * st1.splitBps / 10000
  let toNextPot := amount - toCurrentPot
  let st2 := { st1 with
    currentRound := { st1.currentRound with prizePool := st1.currentRound.prizePool + toCurrentPot },
    nextPrizePool := st1.nextPrizePool + toNextPot }
  if st2.isPlayer r sender then st2
  else { st2 with
    isPlayer := updB st2.isPlayer r sender true,
    roundPlayers := updL st2.roundPlayers r (st2.roundPlayers r ++ [sender]) }

/-- Slot takeover with the per-player slot cap, mirroring the source. -/
def bidSlot (st : State) (r sender slotIndex : Nat) (word : List Nat) (newCum : Nat) :
    Except Err State :=
  let s := st.slots slotIndex
  if s.highestTotal < newCum then
    if s.owner ≠ sender then
      if st.maxSlotsPerPlayer ≤ st.playerSlotCount r sender then .error .SlotCapReached
      else
        let inc := upd2 st.playerSlotCount r sender (st.playerSlotCount r sender + 1)
        let st1 := { st with playerSlotCount := inc }
        if s.owner ≠ 0 then
          if st1.playerSlotCount r s.owner = 0 then .error .Underflow
          else
            let dec := upd2 st1.playerSlotCount r s.owner (st1.playerSlotCount r s.owner - 1)
            let st2 := { st1 with playerSlotCount := dec }
            .ok { st2 with slots := updS st2.slots slotIndex ⟨word, sender, newCum⟩ }
        else
          .ok { st1 with slots := updS st1.slots slotIndex ⟨word, sender, newCum⟩ }
    else .ok { st with slots := updS st.slots slotIndex ⟨word, sender, newCum⟩ }
  else .ok st

/-- The `bid` entrypoint. -/
def bid (st : State) (now sender slotIndex : Nat) (word : List Nat) (amount : Nat) :
    Except Err State :=
  match bidChecks st now slotIndex word amount with
  | some e => .error e
  | none =>
    let r := st.currentRound.id
    let newCum := st.cumulativeBids r slotIndex sender + amount
    let st1 := bidSnipe (bidStart st now) now
    let st2 := bidLedger st1 r sender slotIndex amount newCum
    bidSlot st2 r sender slotIndex word newCum

/-- The `fund` entrypoint: add USDC to the current prize pool, rejected once
the round has ended. -/
def fund (st : State) (now sender amount : Nat) : Except Err State :=
  if st.paused then .error .EnforcedPause
  else if st.currentRound.id = 0 ∨ st.currentRound.resolved then .error .NoActiveRound
  else if 0 < st.currentRound.startedAt ∧ st.currentRound.endTime ≤ now then .error .RoundEnded
  else
    let _ := sender
    .ok { st with currentRound :=
      { st.currentRound with prizePool := st.currentRound.prizePool + amount } }

/-- The `receive` function: ether is never rejected; it attaches to the current
unresolved round, otherwise to the pending pool. -/
def receiveEth (st : State) (value : Nat) : State :=
  if 0 < st.currentRound.id ∧ st.currentRound.resolved = false then
    { st with currentRound :=
        { st.currentRound with ethPrizePool := st.currentRound.ethPrizePool + value } }
  else { st with pendingEth := st.pendingEth + value }

/-- The internal `_createRound`: clear slots, bump the id, fresh pending round. -/
def createRound (st : State) (now usdcPrize ethPrize : Nat) : State :=
  { st with
    slots := fun _ => ⟨[], 0, 0⟩,
    currentRound := {
      id := st.currentRound.id + 1, createdAt := now, startedAt := 0, endTime := 0,
      prizePool := usdcPrize, ethPrizePool := ethPrize, resolved := false } }

/-- The `startRound` entrypoint. -/
def startRound (st : State) (now sender topUp : Nat) : Except Err State :=
  if st.paused then .error .EnforcedPause
  else if 0 < st.currentRound.id ∧ st.currentRound.resolved = false then
    .error .PreviousRoundNotResolved
  else
    let _ := sender
    let prize := st.nextPrizePool + topUp
    if prize = 0 then .error .EmptyPrizePool
    else
      let st1 := { st with nextPrizePool := 0 }
      let st2 := createRound st1 now prize st1.pendingEth
      .ok { st2 with pendingEth := 0 }

/-- The internal `_autoAdvance`: right after a resolution, start the next round
if the pending pool reached the threshold. -/
def autoAdvance (st : State) (now : Nat) : State :=
  if MIN_AUTO_START ≤ st.nextPrizePool then
    let prize := st.nextPrizePool
    let st1 := { st with nextPrizePool := 0 }
    let st2 := createRound st1 now prize st1.pendingEth
    { st2 with pendingEth := 0 }
  else st

/-- The `setMaxSlotsPerPlayer` entrypoint (owner only). -/
def setMaxSlotsPerPlayer (st : State) (sender cap : Nat) : Except Err State :=
  if sender ≠ st.owner then .error .NotOwner
  else if cap = 0 ∨ NUM_SLOTS < cap then .error .InvalidSlotCap
  else .ok { st with maxSlotsPerPlayer := cap }

/-- The internal `_validateResolution`, returning the revert reason if any,
with the checks in source order. -/
def validateResolutionErr (st : State) (now : Nat) : Option Err :=
  if st.currentRound.id = 0 then some .NoActiveRound
  else if st.currentRound.resolved then some .RoundAlreadyResolved
  else if st.currentRound.startedAt = 0 then some .RoundNotStarted
  else if now < st.currentRound.endTime then some .RoundStillActive
  else none

/-- Success epilogue of the solo-refund paths: write the carried pools, mark
the round resolved and auto-advance. -/
def finishSolo (st : State) (next pend now : Nat) : State :=
  autoAdvance { st with
    nextPrizePool := next,
    pendingEth := pend,
    currentRound := { st.currentRound with resolved := true } } now

/-- Success epilogue of the distributing paths: record the rake, store the
updated unclaimed-ether map, mark the round resolved and auto-advance. -/
def finishResolution (st : State) (rake : Nat) (u : Nat → Nat) (now : Nat) : State :=
  autoAdvance { st with
    accumulatedRake := st.accumulatedRake + rake,
    unclaimedEth := u,
    currentRound := { st.currentRound with resolved := true } } now

/-- Shared body of `refundSoloRound` and `_emergencySoloRefund`: refund the
single player their full spend and carry the rest forward; with zero players
carry everything forward. -/
def soloRefundCore (env : Env) (st : State) (now : Nat) : Except Err (State × List Transfer) :=
  let r := st.currentRound.id
  if (st.roundPlayers r).length = 1 then
    let player := (st.roundPlayers r).getD 0 0
    let spent := st.totalSpent r player
    if st.nextPrizePool + st.currentRound.prizePool < spent then .error .Underflow
    else if 0 < spent ∧ env.usdcOk player = false then .error .TransferFailed
    else
      .ok (finishSolo st (st.nextPrizePool + st.currentRound.prizePool - spent)
            (st.pendingEth + st.currentRound.ethPrizePool) now,
          if 0 < spent then [⟨player, .usdc, spent⟩] else [])
  else
    .ok (finishSolo st (st.nextPrizePool + st.currentRound.prizePool)
          (st.pendingEth + st.currentRound.ethPrizePool) now, [])

/-- The `refundSoloRound` entrypoint (callable by anyone). -/
def refundSoloRound (env : Env) (st : State) (now : Nat) : Except Err (State × List Transfer) :=
  match validateResolutionErr st now with
  | some e => .error e
  | none =>
    if 2 ≤ (st.roundPlayers st.currentRound.id).length then .error .HasMultiplePlayers
    else soloRefundCore env st now

/-- Sequential payout loop over (recipient, usdcAmount, ethAmount) triples: a
positive USDC amount to a recipient whose `safeTransfer` fails reverts the
whole call; a failing ether send is parked in the unclaimed map instead. -/
def payoutAll (env : Env) (unclaimed : Nat → Nat) :
    List (Nat × Nat × Nat) → Except Err ((Nat → Nat) × List Transfer)
  | [] => .ok (unclaimed, [])
  | (w, ua, ea) :: rest =>
    if 0 < ua ∧ env.usdcOk w = false then .error .TransferFailed
    else
      let usdcT : List Transfer := if 0 < ua then [⟨w, .usdc, ua⟩] else []
      if 0 < ea then
        if env.ethOk w then
          match payoutAll env unclaimed rest with
          | .error e => .error e
          | .ok (u, ts) => .ok (u, usdcT ++ ⟨w, .eth, ea⟩ :: ts)
        else
          match payoutAll env (upd1 unclaimed w (unclaimed w + ea)) rest with
          | .error e => .error e
          | .ok (u, ts) => .ok (u, usdcT ++ ts)
      else
        match payoutAll env unclaimed rest with
        | .error e => .error e
        | .ok (u, ts) => .ok (u, usdcT ++ ts)

/-- Proportional share as computed by `emergencyResolve`, including its guard
against a zero spend total. -/
def propAlloc (pool spent totalBids : Nat) : Nat :=
  if 0 < totalBids then pool * spent / totalBids else 0

/-- Add the rounding dust of a pool to the last entry of an allocation list,
exactly as the source does. -/
def addDust (pool : Nat) (allocs : List Nat) : List Nat :=
  if allocs.sum < pool ∧ 0 < allocs.length then
    allocs.set (allocs.length - 1) (allocs.getD (allocs.length - 1) 0 + (pool - allocs.sum))
  else allocs

/-- USDC allocation list computed by `emergencyResolve`. -/
def emergencyUsdcAllocs (st : State) : List Nat :=
  let r := st.currentRound.id
  let players := st.roundPlayers r
  let totalBids := (players.map (st.totalSpent r)).sum
  let rake := st.currentRound.prizePool * st.rakeBps / 10000
  let distributable := st.currentRound.prizePool - rake
  addDust distributable (players.map (fun p => propAlloc distributable (st.totalSpent r p) totalBids))

/-- ETH allocation list computed by `emergencyResolve`. -/
def emergencyEthAllocs (st : State) : List Nat :=
  let r := st.currentRound.id
  let players := st.roundPlayers r
  let totalBids := (players.map (st.totalSpent r)).sum
  addDust st.currentRound.ethPrizePool
    (players.map (fun p => propAlloc st.currentRound.ethPrizePool (st.totalSpent r p) totalBids))

/-- The `emergencyResolve` entrypoint (owner only, after the grace period). -/
def emergencyResolve (env : Env) (st : State) (now sender : Nat) :
    Except Err (State × List Transfer) :=
  if sender ≠ st.owner then .error .NotOwner
  else match validateResolutionErr st now with
  | some e => .error e
  | none =>
    if now < st.currentRound.endTime + EMERGENCY_TIMEOUT then .error .EmergencyNotReady
    else
      let r := st.currentRound.id
      let players := st.roundPlayers r
      if players.length < 2 then soloRefundCore env st now
      else
        let rake := st.currentRound.prizePool * st.rakeBps / 10000
        if st.currentRound.prizePool < rake then .error .Underflow
        else
          let triples := players.zip ((emergencyUsdcAllocs st).zip (emergencyEthAllocs st))
          match payoutAll env st.unclaimedEth triples with
          | .error e => .error e
          | .ok (u, ts) => .ok (finishResolution st rake u now, ts)

/-- The `resolveRound` entrypoint (oracle only). -/
def resolveRound (env : Env) (st : State) (now sender : Nat)
    (winners usdcAmounts ethAmounts : List Nat) : Except Err (State × List Transfer) :=
  if sender ≠ st.oracleAddress then .error .NotOracle
  else match validateResolutionErr st now with
  | some e => .error e
  | none =>
    if (st.roundPlayers st.currentRound.id).length < 2 then .error .NeedMorePlayers
    else
      let rake := st.currentRound.prizePool * st.rakeBps / 10000
      if st.currentRound.prizePool < rake then .error .Underflow
      else
        let distributable := st.currentRound.prizePool - rake
        if winners.length ≠ usdcAmounts.length then .error .AllocationMismatch
        else if usdcAmounts.sum ≠ distributable then .error .AllocationMismatch
        else if (winners.zip usdcAmounts).any (fun p => decide (0 < p.2) && !(env.usdcOk p.1)) then
          .error .TransferFailed
        else
          let usdcTs := (winners.zip usdcAmounts).filterMap
            (fun p => if 0 < p.2 then some (⟨p.1, .usdc, p.2⟩ : Transfer) else none)
          if 0 < st.currentRound.ethPrizePool then
            if ethAmounts.length ≠ winners.length then .error .AllocationMismatch
            else if ethAmounts.sum ≠ st.currentRound.ethPrizePool then .error .AllocationMismatch
            else
              match payoutAll env st.unclaimedEth
                  ((winners.zip ethAmounts).map (fun p => (p.1, 0, p.2))) with
              | .error e => .error e
              | .ok (u, ethTs) => .ok (finishResolution st rake u now, usdcTs ++ ethTs)
          else
            .ok (finishResolution st rake st.unclaimedEth now, usdcTs)

/-- The `claimEth` entrypoint: pull a parked failed ether payout. -/
def claimEth (env : Env) (st : State) (sender : Nat) : Except Err (State × List Transfer) :=
  let amount := st.unclaimedEth sender
  if amount = 0 then .error .NothingToClaim
  else if env.ethOk sender = false then .error .TransferFailed
  else .ok ({ st with unclaimedEth := upd1 st.unclaimedEth sender 0 }, [⟨sender, .eth, amount⟩])

/-- Non-resolution operations, for trace-level properties. -/
inductive Op where
  | bidOp (now sender slotIndex : Nat) (word : List Nat) (amount : Nat)
  | fundOp (now sender amount : Nat)
  | receiveOp (value : Nat)
  | startOp (now sender topUp : Nat)
  | setCapOp (sender cap : Nat)
deriving Repr

/-- Apply one operation; a reverting operation leaves the state unchanged. -/
def applyOp (st : State) : Op → State
  | .bidOp now sender k w a =>
    match bid st now sender k w a with
    | .ok st1 => st1
    | .error _ => st
  | .fundOp now sender a =>
    match fund st now sender a with
    | .ok st1 => st1
    | .error _ => st
  | .receiveOp v => receiveEth st v
  | .startOp now sender t =>
    match startRound st now sender t with
    | .ok st1 => st1
    | .error _ => st
  | .setCapOp sender c =>
    match setMaxSlotsPerPlayer st sender c with
    | .ok st1 => st1
    | .error _ => st

/-- Run a list of operations in order. -/
def runOps (st : State) : List Op → State
  | [] => st
  | op :: ops => runOps (applyOp st op) ops

/-- USDC a single operation adds to the current pool through `fund` (zero for
anything but a successful `fund`). -/
def fundAmount (st : State) (op : Op) : Nat :=
  match op with
  | .fundOp now sender a =>
    match fund st now sender a with
    | .ok _ => a
    | .error _ => 0
  | _ => 0

/-- Total USDC added to the current pool by the successful `fund` calls of a
trace. -/
def fundsPaid (st : State) : List Op → Nat
  | [] => 0
  | op :: ops => fundAmount st op + fundsPaid (applyOp st op) ops

/-- Invariant of a round in which `p` is the only bidder: the round is `r`,
unresolved, the split ratio is in range, the combined current-plus-next pool
exceeds the original stake of the round (`base`) by exactly what `p` has
spent, and the player set is either empty or exactly `[p]`. -/
def SoloInv (r p base : Nat) (st : State) : Prop :=
  st.currentRound.id = r ∧ st.currentRound.resolved = false ∧ st.splitBps ≤ 10000 ∧
  st.nextPrizePool + st.currentRound.prizePool = base + st.totalSpent r p ∧
  ((st.roundPlayers r = [] ∧ st.isPlayer r p = false) ∨
   (st.roundPlayers r = [p] ∧ st.isPlayer r p = true))

/-- Operations a lone participant `p` (or outside funders) can perform inside
one round. -/
def soloOp (p : Nat) : Op → Prop
  | .bidOp _ sender _ _ _ => sender = p
  | .fundOp _ _ _ => True
  | .receiveOp _ => True
  | _ => False

/-- Operations that keep the current round (everything except `startRound`). -/
def keepsRound : Op → Prop
  | .startOp _ _ _ => False
  | _ => True

/-- A convenient genesis state (fresh deployment). -/
def initState : State := {
  owner := 1
  oracleAddress := 2
  minBid := 1
  roundDuration := 3600
  rakeBps := 1000
  splitBps := 7000
  maxSlotsPerPlayer := 6
  accumulatedRake := 0
  nextPrizePool := 0
  pendingEth := 0
  paused := false
  currentRound := ⟨0, 0, 0, 0, 0, 0, false⟩
  slots := fun _ => ⟨[], 0, 0⟩
  cumulativeBids := fun _ _ _ => 0
  totalSpent := fun _ _ => 0
  playerSlotCount := fun _ _ => 0
  roundPlayers := fun _ => []
  isPlayer := fun _ _ => false
  unclaimedEth := fun _ => 0 }

/-- A concrete round that has already ended: started at 10, over at 3610,
USDC pool 100, ETH pool 5, two registered players 5 and 6 who spent 30 and
10. -/
def stRes : State := { initState with
  currentRound := ⟨1, 0, 10, 3610, 100, 5, false⟩
  roundPlayers := updL (fun _ => []) 1 [5, 6]
  isPlayer := fun r a => decide (r = 1) && (decide (a = 5) || decide (a = 6))
  totalSpent := fun r a => if r = 1 ∧ a = 5 then 30 else if r = 1 ∧ a = 6 then 10 else 0
  playerSlotCount := fun r a => if r = 1 ∧ a = 5 then 1 else if r = 1 ∧ a = 6 then 1 else 0 }

/-- A concrete pending round (no bid yet, timer not started). -/
def stPending : State :=
  { initState with currentRound := ⟨1, 0, 0, 0, 100, 0, false⟩ }

/-- A concrete running round: started at 10, ends at 3610. -/
def stActive : State :=
  { initState with currentRound := ⟨1, 0, 10, 3610, 100, 0, false⟩ }

/-- Round endTime after a bid, for stating concrete counterexamples. -/
def postEndTime (e : Except Err State) : Option Nat :=
  match e with
  | .ok st => some st.currentRound.endTime
  | .error _ => none

/-- Trace for the slot-cap counterexample: start a round, player 7 takes two
slots under cap 6, then the owner lowers the cap to 1 mid-round. -/
def capOps : List Op :=
  [Op.startOp 0 3 100,
   Op.bidOp 10 7 0 [104] 5,
   Op.bidOp 11 7 1 [105] 5,
   Op.setCapOp 1 1]

/-- State of `bid` just before the slot-takeover step: clock start, anti-snipe
extension and ledger bookkeeping applied. -/
def bidPre (st : State) (now sender slotIndex amount : Nat) : State :=
  bidLedger (bidSnipe (bidStart st now) now) st.currentRound.id sender slotIndex amount
    (st.cumulativeBids st.currentRound.id slotIndex sender + amount)

/-- State after player 5 bids 10 on slot 0 of the running round. -/
def stW5 : State := applyOp stActive (Op.bidOp 100 5 0 [104] 10)

/-- Post state of a resolution-style call, with a default for the error case. -/
def okState (e : Except Err (State × List Transfer)) (d : State) : State :=
  match e with
  | .ok (s, _) => s
  | .error _ => d

/-- Transfer list of a resolution-style call (empty in the error case). -/
def okTransfers (e : Except Err (State × List Transfer)) : List Transfer :=
  match e with
  | .ok (_, ts) => ts
  | .error _ => []

/-- Solo-round trace: the lone player 5 bids 8, an outsider funds 7. -/
def c2ops : List Op := [Op.bidOp 10 5 0 [104] 8, Op.fundOp 20 9 7]

/-- A running round in which player 5 owns slot 0 with highest total 10, and
player 6 already owns 1 slot under a cap of 1. -/
def stCap : State := { stActive with
  maxSlotsPerPlayer := 1
  slots := updS (fun _ => ⟨[], 0, 0⟩) 0 ⟨[104], 5, 10⟩
  playerSlotCount := fun r a => if r = 1 ∧ a = 6 then 1 else if r = 1 ∧ a = 5 then 1 else 0 }

/-- Environment in which USDC transfers to address 6 fail. -/
def envBadUsdc : Env := ⟨fun a => !(a == 6), fun _ => true⟩

/-- Environment in which ether sends to address 6 fail. -/
def envBadEth : Env := ⟨fun _ => true, fun a => !(a == 6)⟩

lemma rake_le_pool (p bps : Nat) (h : bps ≤ 10000) : p * bps / 10000 ≤ p := by
  calc p * bps / 10000 ≤ p * 10000 / 10000 :=
        Nat.div_le_div_right (Nat.mul_le_mul_left p h)
    _ = p := Nat.mul_div_cancel p (by norm_num)

/-- C10: ether sent directly to the contract is never rejected: with an
unresolved round present — even one whose timer has already expired — the
ether is added to that round's ETH prize pool, and only with no round or a
resolved round does it accumulate in `pendingEth`; USDC `fund`, by contrast,
rejects with `RoundEnded` once the round timer has expired.  `receiveEth` is
a total function, which is the never-rejects part of the claim. -/
theorem claim10_receive_vs_fund (st : State) (v now sender amount : Nat) :
    ((0 < st.currentRound.id ∧ st.currentRound.resolved = false) →
      (receiveEth st v).currentRound.ethPrizePool = st.currentRound.ethPrizePool + v ∧
      (receiveEth st v).pendingEth = st.pendingEth) ∧
    (¬(0 < st.currentRound.id ∧ st.currentRound.resolved = false) →
      (receiveEth st v).pendingEth = st.pendingEth + v ∧
      (receiveEth st v).currentRound = st.currentRound) ∧
    (st.paused = false → 0 < st.currentRound.id → st.currentRound.resolved = false →
      0 < st.currentRound.startedAt → st.currentRound.endTime ≤ now →
      fund st now sender amount = .error .RoundEnded) := by
  refine ⟨fun h => ?_, fun h => ?_, fun hp h1 h2 h3 h4 => ?_⟩
  · rw [receiveEth, if_pos h]
    exact ⟨rfl, rfl⟩
  · rw [receiveEth, if_neg h]
    exact ⟨rfl, rfl⟩
  · rw [fund, if_neg (by simp [hp]), if_neg (by simp [h2]; omega), if_pos ⟨h3, h4⟩]

/-- Witness for C10 at a concrete ended round. -/
theorem claim10_witness :
    (receiveEth stRes 7).currentRound.ethPrizePool = 12 ∧
    fund stRes 5000 9 3 = .error .RoundEnded := by
  constructor
  · have h := (claim10_receive_vs_fund stRes 7 5000 9 3).1 (by decide)
    exact h.1.trans (by decide)
  · exact (claim10_receive_vs_fund stRes 3 5000 9 3).2.2 rfl (by decide) rfl (by decide)
      (by decide)

/-- C3: an oracle resolution whose USDC amounts do not sum to the
fee-adjusted distributable pool, or whose ETH amounts do not sum to a
non-zero ETH prize pool, rejects with `AllocationMismatch`.  The error result
carries no post-state: in EVM terms the whole call reverts, so no transfer
survives, the round stays unresolved and `accumulatedRake` is unchanged. -/
theorem claim3_allocation_mismatch_rejects (env : Env) (st : State)
    (now sender : Nat) (winners usdcAmounts ethAmounts : List Nat)
    (hok : ∀ a, env.usdcOk a = true)
    (hsender : sender = st.oracleAddress)
    (hvalid : validateResolutionErr st now = none)
    (hplayers : 2 ≤ (st.roundPlayers st.currentRound.id).length)
    (hrake : st.rakeBps ≤ 10000)
    (hmis : usdcAmounts.sum
        ≠ st.currentRound.prizePool - st.currentRound.prizePool * st.rakeBps / 10000
      ∨ (0 < st.currentRound.ethPrizePool ∧ ethAmounts.sum ≠ st.currentRound.ethPrizePool)) :
    resolveRound env st now sender winners usdcAmounts ethAmounts
      = .error .AllocationMismatch := by
  subst hsender
  have hrle := rake_le_pool st.currentRound.prizePool st.rakeBps hrake
  rw [resolveRound, if_neg (by simp), hvalid]
  rw [if_neg (by omega), if_neg (by omega)]
  by_cases hlen : winners.length = usdcAmounts.length
  · rw [if_neg (by omega)]
    by_cases hsum : usdcAmounts.sum
        = st.currentRound.prizePool - st.currentRound.prizePool * st.rakeBps / 10000
    · rcases hmis with hmis | hmis
      · exact absurd hsum hmis
      · rw [if_neg (by omega)]
        have hany : ((winners.zip usdcAmounts).any
            (fun p => decide (0 < p.2) && !(env.usdcOk p.1))) = false := by
          rw [List.any_eq_false]
          intro x _
          simp [hok x.1]
        rw [if_neg (by simp [hany]), if_pos hmis.1]
        by_cases helen : ethAmounts.length = winners.length
        · rw [if_neg (by omega), if_pos hmis.2]
        · rw [if_pos helen]
    · rw [if_pos hsum]
  · rw [if_pos (by omega)]

/-- Witness for C3: two players, distributable pool 90, submitted USDC sums
to 89 — rejected with the allocation mismatch error. -/
theorem claim3_witness :
    resolveRound allOk stRes 100000 2 [5, 6] [50, 39] [2, 3]
      = .error .AllocationMismatch :=
  claim3_allocation_mismatch_rejects allOk stRes 100000 2 [5, 6] [50, 39] [2, 3]
    (fun _ => rfl) rfl (by decide) (by decide) (by decide) (Or.inl (by decide))

section BidLemmas

variable {st st' : State} {now sender slotIndex amount newCum : Nat} {word : List Nat}

lemma bidSlot_ok_cases {r : Nat} (h : bidSlot st r sender slotIndex word newCum = .ok st') :
    (¬ (st.slots slotIndex).highestTotal < newCum ∧ st' = st) ∨
    ((st.slots slotIndex).highestTotal < newCum ∧ (st.slots slotIndex).owner = sender ∧
      st' = { st with slots := updS st.slots slotIndex ⟨word, sender, newCum⟩ }) ∨
    ((st.slots slotIndex).highestTotal < newCum ∧ (st.slots slotIndex).owner ≠ sender ∧
      st.playerSlotCount r sender < st.maxSlotsPerPlayer ∧
      ((st.slots slotIndex).owner = 0 ∧
        st' = { st with
          playerSlotCount := upd2 st.playerSlotCount r sender (st.playerSlotCount r sender + 1),
          slots := updS st.slots slotIndex ⟨word, sender, newCum⟩ } ∨
       (st.slots slotIndex).owner ≠ 0 ∧
        st' = { st with
          playerSlotCount :=
            upd2 (upd2 st.playerSlotCount r sender (st.playerSlotCount r sender + 1)) r
              (st.slots slotIndex).owner
              ((upd2 st.playerSlotCount r sender (st.playerSlotCount r sender + 1)) r
                (st.slots slotIndex).owner - 1),
          slots := updS st.slots slotIndex ⟨word, sender, newCum⟩ })) := by
  simp only [bidSlot] at h
  split_ifs at h with h1 h2 h3 h4 h5
  · injection h with h
    subst h
    exact Or.inr (Or.inr ⟨h1, h2, by omega, Or.inr ⟨h4, rfl⟩⟩)
  · injection h with h
    subst h
    exact Or.inr (Or.inr ⟨h1, h2, by omega, Or.inl ⟨by omega, rfl⟩⟩)
  · injection h with h
    subst h
    exact Or.inr (Or.inl ⟨h1, by omega, rfl⟩)
  · injection h with h
    subst h
    exact Or.inl ⟨h1, rfl⟩

lemma bidSlot_ok_frame {r : Nat} (h : bidSlot st r sender slotIndex word newCum = .ok st') :
    st'.currentRound = st.currentRound ∧ st'.cumulativeBids = st.cumulativeBids ∧
    st'.totalSpent = st.totalSpent ∧ st'.roundPlayers = st.roundPlayers ∧
    st'.isPlayer = st.isPlayer ∧ st'.nextPrizePool = st.nextPrizePool ∧
    st'.maxSlotsPerPlayer = st.maxSlotsPerPlayer ∧ st'.splitBps = st.splitBps ∧
    st'.pendingEth = st.pendingEth ∧ st'.unclaimedEth = st.unclaimedEth ∧
    st'.accumulatedRake = st.accumulatedRake := by
  rcases bidSlot_ok_cases h with ⟨_, rfl⟩ | ⟨_, _, rfl⟩ |
    ⟨_, _, _, ⟨_, rfl⟩ | ⟨_, rfl⟩⟩ <;>
    exact ⟨rfl, rfl, rfl, rfl, rfl, rfl, rfl, rfl, rfl, rfl, rfl⟩

lemma bidSlot_capReject {r : Nat} (h1 : (st.slots slotIndex).highestTotal < newCum)
    (h2 : (st.slots slotIndex).owner ≠ sender)
    (h3 : st.maxSlotsPerPlayer ≤ st.playerSlotCount r sender) :
    bidSlot st r sender slotIndex word newCum = .error .SlotCapReached := by
  simp only [bidSlot]
  rw [if_pos h1, if_pos h2, if_pos h3]

lemma bid_ok_decomp (h : bid st now sender slotIndex word amount = .ok st') :
    bidChecks st now slotIndex word amount = none ∧
    bidSlot (bidPre st now sender slotIndex amount) st.currentRound.id sender slotIndex word
      (st.cumulativeBids st.currentRound.id slotIndex sender + amount) = .ok st' := by
  unfold bid at h
  cases hc : bidChecks st now slotIndex word amount with
  | some e => rw [hc] at h; exact Except.noConfusion h
  | none => rw [hc] at h; exact ⟨rfl, h⟩

lemma bid_eq_of_checks (hc : bidChecks st now slotIndex word amount = none) :
    bid st now sender slotIndex word amount
      = bidSlot (bidPre st now sender slotIndex amount) st.currentRound.id sender slotIndex word
          (st.cumulativeBids st.currentRound.id slotIndex sender + amount) := by
  unfold bid
  rw [hc]
  rfl

lemma bidPre_slots : (bidPre st now sender slotIndex amount).slots = st.slots := by
  simp only [bidPre, bidLedger, bidSnipe, bidStart]
  split_ifs <;> rfl

lemma bidPre_counts :
    (bidPre st now sender slotIndex amount).playerSlotCount = st.playerSlotCount := by
  simp only [bidPre, bidLedger, bidSnipe, bidStart]
  split_ifs <;> rfl

lemma bidPre_maxSlots :
    (bidPre st now sender slotIndex amount).maxSlotsPerPlayer = st.maxSlotsPerPlayer := by
  simp only [bidPre, bidLedger, bidSnipe, bidStart]
  split_ifs <;> rfl

lemma bidPre_id :
    (bidPre st now sender slotIndex amount).currentRound.id = st.currentRound.id := by
  simp only [bidPre, bidLedger, bidSnipe, bidStart]
  split_ifs <;> rfl

lemma bidPre_resolved :
    (bidPre st now sender slotIndex amount).currentRound.resolved
      = st.currentRound.resolved := by
  simp only [bidPre, bidLedger, bidSnipe, bidStart]
  split_ifs <;> rfl

lemma bidPre_ethPool :
    (bidPre st now sender slotIndex amount).currentRound.ethPrizePool
      = st.currentRound.ethPrizePool := by
  simp only [bidPre, bidLedger, bidSnipe, bidStart]
  split_ifs <;> rfl

lemma bidPre_splitBps : (bidPre st now sender slotIndex amount).splitBps = st.splitBps := by
  simp only [bidPre, bidLedger, bidSnipe, bidStart]
  split_ifs <;> rfl

lemma bidPre_pendingEth :
    (bidPre st now sender slotIndex amount).pendingEth = st.pendingEth := by
  simp only [bidPre, bidLedger, bidSnipe, bidStart]
  split_ifs <;> rfl

lemma bidPre_cum :
    (bidPre st now sender slotIndex amount).cumulativeBids
      = upd3 st.cumulativeBids st.currentRound.id slotIndex sender
          (st.cumulativeBids st.currentRound.id slotIndex sender + amount) := by
  simp only [bidPre, bidLedger, bidSnipe, bidStart]
  split_ifs <;> rfl

lemma bidPre_totalSpent :
    (bidPre st now sender slotIndex amount).totalSpent
      = upd2 st.totalSpent st.currentRound.id sender
          (st.totalSpent st.currentRound.id sender + amount) := by
  simp only [bidPre, bidLedger, bidSnipe, bidStart]
  split_ifs <;> rfl

lemma bidPre_prize :
    (bidPre st now sender slotIndex amount).currentRound.prizePool
      = st.currentRound.prizePool + amount * st.splitBps / 10000 := by
  simp only [bidPre, bidLedger, bidSnipe, bidStart]
  split_ifs <;> rfl

lemma bidPre_next :
    (bidPre st now sender slotIndex amount).nextPrizePool
      = st.nextPrizePool + (amount - amount * st.splitBps / 10000) := by
  simp only [bidPre, bidLedger, bidSnipe, bidStart]
  split_ifs <;> rfl

lemma bidPre_players :
    (bidPre st now sender slotIndex amount).roundPlayers
      = if st.isPlayer st.currentRound.id sender then st.roundPlayers
        else updL st.roundPlayers st.currentRound.id
          (st.roundPlayers st.currentRound.id ++ [sender]) := by
  simp only [bidPre, bidLedger, bidSnipe, bidStart]
  split_ifs <;> rfl

lemma bidPre_isPlayer :
    (bidPre st now sender slotIndex amount).isPlayer
      = if st.isPlayer st.currentRound.id sender then st.isPlayer
        else updB st.isPlayer st.currentRound.id sender true := by
  simp only [bidPre, bidLedger, bidSnipe, bidStart]
  split_ifs <;> rfl

lemma bidPre_startedAt :
    (bidPre st now sender slotIndex amount).currentRound.startedAt
      = if st.currentRound.startedAt = 0 then now else st.currentRound.startedAt := by
  simp only [bidPre, bidLedger, bidSnipe, bidStart]
  split_ifs <;> rfl

lemma bidPre_endTime_started (hs : st.currentRound.startedAt ≠ 0) :
    (bidPre st now sender slotIndex amount).currentRound.endTime
      = if st.currentRound.endTime - now ≤ ANTI_SNIPE_WINDOW then
          st.currentRound.endTime + ANTI_SNIPE_EXTENSION
        else st.currentRound.endTime := by
  simp only [bidPre, bidLedger, bidSnipe, bidStart]
  rw [if_neg hs]
  split_ifs <;> rfl

lemma bid_ok_slots_cases (h : bid st now sender slotIndex word amount = .ok st') :
    (¬ (st.slots slotIndex).highestTotal
        < st.cumulativeBids st.currentRound.id slotIndex sender + amount ∧
      st'.slots = st.slots) ∨
    ((st.slots slotIndex).highestTotal
        < st.cumulativeBids st.currentRound.id slotIndex sender + amount ∧
      st'.slots = updS st.slots slotIndex
        ⟨word, sender, st.cumulativeBids st.currentRound.id slotIndex sender + amount⟩) := by
  obtain ⟨hc, hs⟩ := bid_ok_decomp h
  rcases bidSlot_ok_cases hs with ⟨hn, rfl⟩ | ⟨ht, _, rfl⟩ |
    ⟨ht, _, _, ⟨_, rfl⟩ | ⟨_, rfl⟩⟩
  · rw [bidPre_slots] at hn
    exact Or.inl ⟨hn, bidPre_slots⟩
  all_goals rw [bidPre_slots] at ht
  all_goals exact Or.inr ⟨ht, by simp only [bidPre_slots]⟩

lemma bid_ok_frame (h : bid st now sender slotIndex word amount = .ok st') :
    st'.currentRound.id = st.currentRound.id ∧
    st'.currentRound.resolved = st.currentRound.resolved ∧
    st'.currentRound.ethPrizePool = st.currentRound.ethPrizePool ∧
    st'.maxSlotsPerPlayer = st.maxSlotsPerPlayer ∧
    st'.splitBps = st.splitBps ∧
    st'.pendingEth = st.pendingEth := by
  obtain ⟨hc, hs⟩ := bid_ok_decomp h
  obtain ⟨h1, _, _, _, _, _, h7, h8, h9, _, _⟩ := bidSlot_ok_frame hs
  refine ⟨?_, ?_, ?_, ?_, ?_, ?_⟩
  · rw [h1, bidPre_id]
  · rw [h1, bidPre_resolved]
  · rw [h1, bidPre_ethPool]
  · rw [h7, bidPre_maxSlots]
  · rw [h8, bidPre_splitBps]
  · rw [h9, bidPre_pendingEth]

lemma bid_ok_cum (h : bid st now sender slotIndex word amount = .ok st') :
    st'.cumulativeBids
      = upd3 st.cumulativeBids st.currentRound.id slotIndex sender
          (st.cumulativeBids st.currentRound.id slotIndex sender + amount) := by
  obtain ⟨hc, hs⟩ := bid_ok_decomp h
  rw [(bidSlot_ok_frame hs).2.1, bidPre_cum]

lemma bid_ok_totalSpent (h : bid st now sender slotIndex word amount = .ok st') :
    st'.totalSpent
      = upd2 st.totalSpent st.currentRound.id sender
          (st.totalSpent st.currentRound.id sender + amount) := by
  obtain ⟨hc, hs⟩ := bid_ok_decomp h
  rw [(bidSlot_ok_frame hs).2.2.1, bidPre_totalSpent]

lemma bid_ok_prize (h : bid st now sender slotIndex word amount = .ok st') :
    st'.currentRound.prizePool
      = st.currentRound.prizePool + amount * st.splitBps / 10000 := by
  obtain ⟨hc, hs⟩ := bid_ok_decomp h
  rw [(bidSlot_ok_frame hs).1, bidPre_prize]

lemma bid_ok_next (h : bid st now sender slotIndex word amount = .ok st') :
    st'.nextPrizePool
      = st.nextPrizePool + (amount - amount * st.splitBps / 10000) := by
  obtain ⟨hc, hs⟩ := bid_ok_decomp h
  rw [(bidSlot_ok_frame hs).2.2.2.2.2.1, bidPre_next]

lemma bid_ok_players (h : bid st now sender slotIndex word amount = .ok st') :
    st'.roundPlayers
      = if st.isPlayer st.currentRound.id sender then st.roundPlayers
        else updL st.roundPlayers st.currentRound.id
          (st.roundPlayers st.currentRound.id ++ [sender]) := by
  obtain ⟨hc, hs⟩ := bid_ok_decomp h
  rw [(bidSlot_ok_frame hs).2.2.2.1, bidPre_players]

lemma bid_ok_isPlayer (h : bid st now sender slotIndex word amount = .ok st') :
    st'.isPlayer
      = if st.isPlayer st.currentRound.id sender then st.isPlayer
        else updB st.isPlayer st.currentRound.id sender true := by
  obtain ⟨hc, hs⟩ := bid_ok_decomp h
  rw [(bidSlot_ok_frame hs).2.2.2.2.1, bidPre_isPlayer]

lemma bid_ok_endTime_started (hs : st.currentRound.startedAt ≠ 0)
    (h : bid st now sender slotIndex word amount = .ok st') :
    st'.currentRound.endTime
      = if st.currentRound.endTime - now ≤ ANTI_SNIPE_WINDOW then
          st.currentRound.endTime + ANTI_SNIPE_EXTENSION
        else st.currentRound.endTime := by
  obtain ⟨hc, hsl⟩ := bid_ok_decomp h
  rw [(bidSlot_ok_frame hsl).1, bidPre_endTime_started hs]

end BidLemmas

/-- C7 (amended): on a round whose clock has started, a successful bid placed
with `endTime - now ≤ 60` pushes `endTime` forward by exactly 60, and a
successful bid outside that window leaves `endTime` unchanged.  (On the very
first bid of a pending round the source instead initialises `endTime`, which
is why the claim is restricted to started rounds.) -/
theorem claim7_anti_snipe (st st' : State) (now sender slotIndex amount : Nat)
    (word : List Nat)
    (hstarted : 0 < st.currentRound.startedAt)
    (h : bid st now sender slotIndex word amount = .ok st') :
    (st.currentRound.endTime - now ≤ 60 →
       st'.currentRound.endTime = st.currentRound.endTime + 60) ∧
    (60 < st.currentRound.endTime - now →
       st'.currentRound.endTime = st.currentRound.endTime) := by
  have he := bid_ok_endTime_started (by omega) h
  simp only [ANTI_SNIPE_WINDOW, ANTI_SNIPE_EXTENSION] at he
  constructor <;> intro hw
  · rw [he, if_pos hw]
  · rw [he, if_neg (by omega)]

/-- Witness for C7: a bid 50 time units before the end extends the round by
exactly 60. -/
theorem claim7_witness :
    (applyOp stActive (Op.bidOp 3560 5 0 [104] 10)).currentRound.endTime = 3670 := by
  have h : bid stActive 3560 5 0 [104] 10
      = .ok (applyOp stActive (Op.bidOp 3560 5 0 [104] 10)) := rfl
  have := (claim7_anti_snipe stActive _ 3560 5 0 10 [104] (by decide) h).1 (by decide)
  exact this.trans (by decide)

/-- C7 counterexample to the claim as stated: the first bid of a pending round
satisfies `endTime - now ≤ 60` (pre-bid `endTime` is 0) yet sets `endTime` to
`now + duration`, not `endTime + 60`. -/
theorem claim7_counterexample :
    stPending.currentRound.endTime - 1000 ≤ 60 ∧
    postEndTime (bid stPending 1000 5 0 [97] 1) = some 4600 ∧
    some (stPending.currentRound.endTime + 60) ≠ some 4600 := by
  refine ⟨by decide, ?_, by decide⟩
  rfl

/-- C5: slot ownership is monotonic within a round — `highestCumulative`
never decreases across any sequence of operations that keep the round, and a
successful bid changes a slot (owner, word or highest total) only when it
lifts the bidder's cumulative total strictly above the previous highest; in
particular a bid that merely ties leaves the slot untouched. -/
theorem claim5_slot_monotonicity (st : State) (ops : List Op) (slotIndex : Nat)
    (hops : ∀ op ∈ ops, keepsRound op) :
    ((st.slots slotIndex).highestTotal
        ≤ ((runOps st ops).slots slotIndex).highestTotal) ∧
    (∀ st' now sender j amount, ∀ word : List Nat,
      bid st now sender j word amount = .ok st' →
      (st.cumulativeBids st.currentRound.id j sender + amount
          ≤ (st.slots j).highestTotal → st'.slots = st.slots) ∧
      (∀ i, st'.slots i ≠ st.slots i →
        i = j ∧ (st.slots j).highestTotal
          < st.cumulativeBids st.currentRound.id j sender + amount)) := by
  constructor
  · induction ops generalizing st with
    | nil => exact le_refl _
    | cons op ops ih =>
      have hstep : (st.slots slotIndex).highestTotal
          ≤ ((applyOp st op).slots slotIndex).highestTotal := by
        cases op with
        | bidOp now sender k w a =>
          show (st.slots slotIndex).highestTotal
            ≤ ((match bid st now sender k w a with
                | .ok st1 => st1
                | .error _ => st).slots slotIndex).highestTotal
          cases hb : bid st now sender k w a with
          | error e => exact le_refl _
          | ok st1 =>
            rcases bid_ok_slots_cases hb with ⟨_, hsl⟩ | ⟨ht, hsl⟩
            · rw [hsl]
            · rw [hsl]
              by_cases hik : slotIndex = k
              · subst hik
                simp [updS]
                omega
              · simp [updS, hik]
        | fundOp now sender a =>
          show (st.slots slotIndex).highestTotal
            ≤ ((match fund st now sender a with
                | .ok st1 => st1
                | .error _ => st).slots slotIndex).highestTotal
          cases hb : fund st now sender a with
          | error e => exact le_refl _
          | ok st1 =>
            unfold fund at hb
            split_ifs at hb
            injection hb with hb
            subst hb
            exact le_refl _
        | receiveOp v =>
          show (st.slots slotIndex).highestTotal
            ≤ ((receiveEth st v).slots slotIndex).highestTotal
          unfold receiveEth
          split_ifs <;> exact le_refl _
        | startOp now sender t =>
          exact absurd (hops (Op.startOp now sender t) (by simp)) (by simp [keepsRound])
        | setCapOp sender c =>
          show (st.slots slotIndex).highestTotal
            ≤ ((match setMaxSlotsPerPlayer st sender c with
                | .ok st1 => st1
                | .error _ => st).slots slotIndex).highestTotal
          cases hb : setMaxSlotsPerPlayer st sender c with
          | error e => exact le_refl _
          | ok st1 =>
            unfold setMaxSlotsPerPlayer at hb
            split_ifs at hb
            injection hb with hb
            subst hb
            exact le_refl _
      calc (st.slots slotIndex).highestTotal
          ≤ ((applyOp st op).slots slotIndex).highestTotal := hstep
        _ ≤ ((runOps (applyOp st op) ops).slots slotIndex).highestTotal :=
            ih _ (fun o ho => hops o (by simp [ho]))
  · intro st' now sender j amount word h
    constructor
    · intro htie
      rcases bid_ok_slots_cases h with ⟨_, hsl⟩ | ⟨ht, _⟩
      · exact hsl
      · omega
    · intro i hne
      rcases bid_ok_slots_cases h with ⟨_, hsl⟩ | ⟨ht, hsl⟩
      · exact absurd (congrFun hsl i) hne
      · rw [hsl] at hne
        by_cases hij : i = j
        · exact ⟨hij, by omega⟩
        · rw [updS] at hne
          simp only [if_neg hij] at hne
          exact absurd rfl hne

/-- Witness for C5: after player 5 reaches cumulative 10 on slot 0, a tying
bid of 10 by player 6 leaves the whole slot array unchanged. -/
theorem claim5_witness :
    (applyOp stW5 (Op.bidOp 101 6 0 [105] 10)).slots = stW5.slots := by
  have h : bid stW5 101 6 0 [105] 10
      = .ok (applyOp stW5 (Op.bidOp 101 6 0 [105] 10)) := rfl
  exact ((claim5_slot_monotonicity stW5 [] 0 (by simp)).2 _ 101 6 0 10 [105] h).1
    (by decide)

lemma upd2_take_eval (C : Nat → Nat → Nat) (r s prev : Nat) (h : prev ≠ s) :
    upd2 (upd2 C r s (C r s + 1)) r prev ((upd2 C r s (C r s + 1)) r prev - 1) r s
      = C r s + 1 ∧
    upd2 (upd2 C r s (C r s + 1)) r prev ((upd2 C r s (C r s + 1)) r prev - 1) r prev
      = C r prev - 1 ∧
    (∀ q, q ≠ s → q ≠ prev →
      upd2 (upd2 C r s (C r s + 1)) r prev ((upd2 C r s (C r s + 1)) r prev - 1) r q
        = C r q) := by
  refine ⟨?_, ?_, ?_⟩
  · simp [upd2, Ne.symm h]
  · simp [upd2, h]
  · intro q hq1 hq2
    simp [upd2, hq1, hq2]

lemma upd2_inc_eval (C : Nat → Nat → Nat) (r s : Nat) :
    upd2 C r s (C r s + 1) r s = C r s + 1 ∧
    (∀ q, q ≠ s → upd2 C r s (C r s + 1) r q = C r q) := by
  refine ⟨?_, ?_⟩
  · simp [upd2]
  · intro q hq
    simp [upd2, hq]

/-- C6 (amended): bids enforce the slot cap — a bid that would hand a slot to
a participant distinct from its current owner rejects with `SlotCapReached`
(the error carries no state, so nothing is mutated) when that participant
already owns `maxSlotsPerPlayer` slots this round; otherwise the takeover
increments the new owner's count and decrements the previous owner's (if
any), so successful bids keep every count at or below the live cap.  The
unrestricted claim — no participant ever owns more than `maxSlotsPerPlayer`
slots at any point of a round — fails on the code because the owner can
lower `maxSlotsPerPlayer` mid-round; see the counterexample. -/
theorem claim6_slot_cap (st : State) (now sender slotIndex amount : Nat)
    (word : List Nat) :
    (bidChecks st now slotIndex word amount = none →
      (st.slots slotIndex).highestTotal
        < st.cumulativeBids st.currentRound.id slotIndex sender + amount →
      (st.slots slotIndex).owner ≠ sender →
      st.maxSlotsPerPlayer ≤ st.playerSlotCount st.currentRound.id sender →
      bid st now sender slotIndex word amount = .error .SlotCapReached) ∧
    (∀ st', bid st now sender slotIndex word amount = .ok st' →
      (((st.slots slotIndex).highestTotal
          < st.cumulativeBids st.currentRound.id slotIndex sender + amount ∧
        (st.slots slotIndex).owner ≠ sender) →
        st.playerSlotCount st.currentRound.id sender < st.maxSlotsPerPlayer ∧
        st'.playerSlotCount st.currentRound.id sender
          = st.playerSlotCount st.currentRound.id sender + 1 ∧
        ((st.slots slotIndex).owner ≠ 0 →
          st'.playerSlotCount st.currentRound.id (st.slots slotIndex).owner
            = st.playerSlotCount st.currentRound.id (st.slots slotIndex).owner - 1) ∧
        (∀ q, q ≠ sender → q ≠ (st.slots slotIndex).owner →
          st'.playerSlotCount st.currentRound.id q
            = st.playerSlotCount st.currentRound.id q)) ∧
      (¬((st.slots slotIndex).highestTotal
          < st.cumulativeBids st.currentRound.id slotIndex sender + amount ∧
        (st.slots slotIndex).owner ≠ sender) →
        st'.playerSlotCount = st.playerSlotCount) ∧
      ((∀ q, st.playerSlotCount st.currentRound.id q ≤ st.maxSlotsPerPlayer) →
        ∀ q, st'.playerSlotCount st.currentRound.id q ≤ st'.maxSlotsPerPlayer)) := by
  constructor
  · intro hc ht ho hcap
    rw [bid_eq_of_checks hc]
    exact bidSlot_capReject (by rw [bidPre_slots]; exact ht)
      (by rw [bidPre_slots]; exact ho)
      (by rw [bidPre_counts, bidPre_maxSlots]; exact hcap)
  · intro st' h
    obtain ⟨hc, hs⟩ := bid_ok_decomp h
    have hmax : st'.maxSlotsPerPlayer = st.maxSlotsPerPlayer := (bid_ok_frame h).2.2.2.1
    rcases bidSlot_ok_cases hs with ⟨hn, hst⟩ | ⟨ht, hsame, hst⟩ |
      ⟨ht, hdiff, hlt, hcase⟩
    · rw [bidPre_slots] at hn
      have hcounts : st'.playerSlotCount = st.playerSlotCount := by
        rw [hst]; exact bidPre_counts
      refine ⟨fun hx => absurd hx.1 hn, fun _ => hcounts, fun hall q => ?_⟩
      rw [hcounts, hmax]
      exact hall q
    · rw [bidPre_slots] at ht hsame
      have hcounts : st'.playerSlotCount = st.playerSlotCount := by
        rw [hst]; exact bidPre_counts
      refine ⟨fun hx => absurd hsame hx.2, fun _ => hcounts, fun hall q => ?_⟩
      rw [hcounts, hmax]
      exact hall q
    · rw [bidPre_slots] at ht hdiff
      rw [bidPre_counts, bidPre_maxSlots] at hlt
      rcases hcase with ⟨hzero, hst⟩ | ⟨hnz, hst⟩
      · rw [bidPre_slots] at hzero
        have hcounts : st'.playerSlotCount
            = upd2 st.playerSlotCount st.currentRound.id sender
                (st.playerSlotCount st.currentRound.id sender + 1) := by
          rw [hst]
          show upd2 (bidPre st now sender slotIndex amount).playerSlotCount _ _ _ = _
          rw [bidPre_counts]
        refine ⟨fun _ => ⟨hlt, ?_, fun how => absurd hzero how, ?_⟩,
          fun hx => absurd ⟨ht, hdiff⟩ hx, ?_⟩
        · rw [hcounts]
          exact (upd2_inc_eval _ _ _).1
        · intro q hq1 _
          rw [hcounts]
          exact (upd2_inc_eval _ _ _).2 q hq1
        · intro hall q
          rw [hcounts, hmax]
          by_cases hq : q = sender
          · subst hq
            rw [(upd2_inc_eval _ _ _).1]
            omega
          · rw [(upd2_inc_eval _ _ _).2 q hq]
            exact hall q
      · rw [bidPre_slots] at hnz
        have hcounts : st'.playerSlotCount
            = upd2 (upd2 st.playerSlotCount st.currentRound.id sender
                  (st.playerSlotCount st.currentRound.id sender + 1))
                st.currentRound.id (st.slots slotIndex).owner
                ((upd2 st.playerSlotCount st.currentRound.id sender
                  (st.playerSlotCount st.currentRound.id sender + 1))
                  st.currentRound.id (st.slots slotIndex).owner - 1) := by
          rw [hst]
          show upd2 (upd2 (bidPre st now sender slotIndex amount).playerSlotCount _ _ _)
              _ _ _ = _
          rw [bidPre_counts, bidPre_slots]
        have hev := upd2_take_eval st.playerSlotCount st.currentRound.id sender
          (st.slots slotIndex).owner hdiff
        refine ⟨fun _ => ⟨hlt, ?_, fun _ => ?_, ?_⟩,
          fun hx => absurd ⟨ht, hdiff⟩ hx, ?_⟩
        · rw [hcounts]
          exact hev.1
        · rw [hcounts]
          exact hev.2.1
        · intro q hq1 hq2
          rw [hcounts]
          exact hev.2.2 q hq1 hq2
        · intro hall q
          rw [hcounts, hmax]
          by_cases hq : q = sender
          · subst hq
            rw [hev.1]
            omega
          · by_cases hqp : q = (st.slots slotIndex).owner
            · subst hqp
              rw [hev.2.1]
              have := hall ((st.slots slotIndex).owner)
              omega
            · rw [hev.2.2 q hq hqp]
              exact hall q

/-- Witness for C6: player 6 already owns 1 slot under cap 1, so an
ownership-taking bid on slot 0 rejects with `SlotCapReached`. -/
theorem claim6_witness :
    bid stCap 100 6 0 [106] 20 = .error .SlotCapReached :=
  (claim6_slot_cap stCap 100 6 0 20 [106]).1 (by decide) (by decide) (by decide)
    (by decide)

/-- C6 counterexample to the unrestricted cap invariant: after two slots are
taken under cap 6, the owner lowers the cap to 1 mid-round, leaving player 7
owning 2 slots — more than `maxSlotsPerPlayer` — inside an unresolved
round. -/
theorem claim6_counterexample :
    (runOps initState capOps).currentRound.resolved = false ∧
    (runOps initState capOps).maxSlotsPerPlayer
      < (runOps initState capOps).playerSlotCount 1 7 := by
  constructor
  · rfl
  · decide

lemma upd3_self (f : Nat → Nat → Nat → Nat) (a b c v : Nat) : upd3 f a b c v a b c = v := by
  simp [upd3]

/-- C8: splitting a bid into X then Y (same player, same slot, no intervening
bids from others) produces the same final cumulative total for
(round, slot, participant) and the same final slot owner as the single bid
X + Y, whenever all three bids succeed. -/
theorem claim8_bid_additivity (st st1 st2 st3 : State) (t1 t2 sender slotIndex X Y : Nat)
    (w1 w2 : List Nat)
    (h1 : bid st t1 sender slotIndex w1 X = .ok st1)
    (h2 : bid st1 t2 sender slotIndex w2 Y = .ok st2)
    (h3 : bid st t1 sender slotIndex w1 (X + Y) = .ok st3) :
    st2.cumulativeBids st.currentRound.id slotIndex sender
      = st3.cumulativeBids st.currentRound.id slotIndex sender ∧
    (st2.slots slotIndex).owner = (st3.slots slotIndex).owner := by
  have hid1 : st1.currentRound.id = st.currentRound.id := (bid_ok_frame h1).1
  have hc1 := bid_ok_cum h1
  have hv1 : st1.cumulativeBids st.currentRound.id slotIndex sender
      = st.cumulativeBids st.currentRound.id slotIndex sender + X := by
    rw [hc1, upd3_self]
  constructor
  · rw [bid_ok_cum h2, bid_ok_cum h3, hid1, hv1, upd3_self, upd3_self]
    omega
  · have hs1 := bid_ok_slots_cases h1
    have hs2 := bid_ok_slots_cases h2
    have hs3 := bid_ok_slots_cases h3
    rw [hid1, hv1] at hs2
    rcases hs1 with ⟨hn1, hsl1⟩ | ⟨ht1, hsl1⟩
    · rw [hsl1] at hs2
      rcases hs2 with ⟨hn2, hsl2⟩ | ⟨ht2, hsl2⟩
      · rcases hs3 with ⟨hn3, hsl3⟩ | ⟨ht3, hsl3⟩
        · rw [hsl2, hsl3]
        · omega
      · rcases hs3 with ⟨hn3, hsl3⟩ | ⟨ht3, hsl3⟩
        · omega
        · rw [hsl2, hsl3]
          simp [updS]
    · rw [hsl1] at hs2
      simp only [updS, if_pos rfl] at hs2
      rcases hs3 with ⟨hn3, hsl3⟩ | ⟨ht3, hsl3⟩
      · omega
      · rcases hs2 with ⟨hn2, hsl2⟩ | ⟨ht2, hsl2⟩
        · rw [hsl2, hsl3]
          simp [updS]
        · rw [hsl2, hsl3]
          simp [updS]

/-- Witness for C8: on the running round, bids of 10 then 7 by player 5 on
slot 0 match a single bid of 17. -/
theorem claim8_witness :
    (applyOp (applyOp stActive (Op.bidOp 100 5 0 [104] 10))
        (Op.bidOp 101 5 0 [105] 7)).cumulativeBids stActive.currentRound.id 0 5
      = (applyOp stActive (Op.bidOp 100 5 0 [104] 17)).cumulativeBids
          stActive.currentRound.id 0 5 ∧
    ((applyOp (applyOp stActive (Op.bidOp 100 5 0 [104] 10))
        (Op.bidOp 101 5 0 [105] 7)).slots 0).owner
      = ((applyOp stActive (Op.bidOp 100 5 0 [104] 17)).slots 0).owner := by
  have h1 : bid stActive 100 5 0 [104] 10
      = .ok (applyOp stActive (Op.bidOp 100 5 0 [104] 10)) := rfl
  have h2 : bid (applyOp stActive (Op.bidOp 100 5 0 [104] 10)) 101 5 0 [105] 7
      = .ok (applyOp (applyOp stActive (Op.bidOp 100 5 0 [104] 10))
          (Op.bidOp 101 5 0 [105] 7)) := rfl
  have h3 : bid stActive 100 5 0 [104] 17
      = .ok (applyOp stActive (Op.bidOp 100 5 0 [104] 17)) := rfl
  exact claim8_bid_additivity _ _ _ _ 100 101 5 0 10 7 [104] [105] h1 h2 h3

lemma validate_isSome_post (st1 : State) (now : Nat)
    (h : st1.currentRound.resolved = true) (now2 : Nat) :
    (validateResolutionErr (autoAdvance st1 now) now2).isSome := by
  unfold autoAdvance createRound validateResolutionErr
  split_ifs <;> simp_all

lemma resolveRound_err_aux (env : Env) (st : State) (now sender : Nat)
    (w u e : List Nat) (h : (validateResolutionErr st now).isSome) :
    ∃ er, resolveRound env st now sender w u e = .error er := by
  cases hv : validateResolutionErr st now with
  | none => rw [hv] at h; simp at h
  | some er =>
    by_cases hso : sender = st.oracleAddress
    · exact ⟨er, by rw [resolveRound, if_neg (by simp [hso]), hv]⟩
    · exact ⟨.NotOracle, by rw [resolveRound, if_pos hso]⟩

lemma refundSoloRound_err_aux (env : Env) (st : State) (now : Nat)
    (h : (validateResolutionErr st now).isSome) :
    ∃ er, refundSoloRound env st now = .error er := by
  cases hv : validateResolutionErr st now with
  | none => rw [hv] at h; simp at h
  | some er => exact ⟨er, by rw [refundSoloRound, hv]⟩

lemma emergencyResolve_err_aux (env : Env) (st : State) (now sender : Nat)
    (h : (validateResolutionErr st now).isSome) :
    ∃ er, emergencyResolve env st now sender = .error er := by
  cases hv : validateResolutionErr st now with
  | none => rw [hv] at h; simp at h
  | some er =>
    by_cases hso : sender = st.owner
    · exact ⟨er, by rw [emergencyResolve, if_neg (by simp [hso]), hv]⟩
    · exact ⟨.NotOwner, by rw [emergencyResolve, if_pos hso]⟩

lemma validate_isSome_finishSolo (st : State) (next pend now : Nat) (now2 : Nat) :
    (validateResolutionErr (finishSolo st next pend now) now2).isSome :=
  validate_isSome_post _ _ rfl now2

lemma validate_isSome_finishResolution (st : State) (rake : Nat) (u : Nat → Nat)
    (now now2 : Nat) :
    (validateResolutionErr (finishResolution st rake u now) now2).isSome :=
  validate_isSome_post _ _ rfl now2

lemma soloRefundCore_ok_post {env : Env} {st st' : State} {now : Nat}
    {ts : List Transfer} (h : soloRefundCore env st now = .ok (st', ts)) (now2 : Nat) :
    (validateResolutionErr st' now2).isSome := by
  simp only [soloRefundCore] at h
  repeat' first | split_ifs at h | split at h
  all_goals try exact Except.noConfusion h
  all_goals
    injection h with h
    injection h with hA hB
    subst hA
    exact validate_isSome_finishSolo _ _ _ _ now2

set_option maxHeartbeats 1600000 in
lemma resolveRound_ok_post {env : Env} {st st' : State} {now sender : Nat}
    {w u e : List Nat} {ts : List Transfer}
    (h : resolveRound env st now sender w u e = .ok (st', ts)) (now2 : Nat) :
    (validateResolutionErr st' now2).isSome := by
  simp only [resolveRound] at h
  repeat' first | split_ifs at h | split at h
  all_goals try exact Except.noConfusion h
  all_goals
    injection h with h
    injection h with hA hB
    subst hA
    exact validate_isSome_finishResolution _ _ _ _ now2

lemma refundSoloRound_ok_post {env : Env} {st st' : State} {now : Nat}
    {ts : List Transfer}
    (h : refundSoloRound env st now = .ok (st', ts)) (now2 : Nat) :
    (validateResolutionErr st' now2).isSome := by
  simp only [refundSoloRound] at h
  repeat' first | split_ifs at h | split at h
  all_goals try exact Except.noConfusion h
  exact soloRefundCore_ok_post h now2

set_option maxHeartbeats 1600000 in
lemma emergencyResolve_ok_post {env : Env} {st st' : State} {now sender : Nat}
    {ts : List Transfer}
    (h : emergencyResolve env st now sender = .ok (st', ts)) (now2 : Nat) :
    (validateResolutionErr st' now2).isSome := by
  simp only [emergencyResolve] at h
  repeat' first | split_ifs at h | split at h
  all_goals try exact Except.noConfusion h
  all_goals try exact soloRefundCore_ok_post h now2
  all_goals
    injection h with h
    injection h with hA hB
    subst hA
    exact validate_isSome_finishResolution _ _ _ _ now2

/-- C4: every resolution path is gated by the shared validation — round
exists, started (`RoundNotStarted` otherwise), timer expired
(`RoundStillActive` otherwise), unresolved (`RoundAlreadyResolved`
otherwise); `resolveRound` additionally rejects `NeedMorePlayers` below 2
participants and `refundSoloRound` rejects `HasMultiplePlayers` at 2 or
more; and a successful resolution leaves a state (resolved, or auto-advanced
to a fresh pending round) on which every later resolution call of any path
rejects, so at most one resolution executes per round. -/
theorem claim4_resolution_gating (env : Env) (st : State) (now sender : Nat)
    (winners usdcAmounts ethAmounts : List Nat) :
    (validateResolutionErr st now = none ↔
      (0 < st.currentRound.id ∧ st.currentRound.resolved = false ∧
       0 < st.currentRound.startedAt ∧ st.currentRound.endTime ≤ now)) ∧
    (0 < st.currentRound.id → st.currentRound.resolved = true →
      validateResolutionErr st now = some .RoundAlreadyResolved) ∧
    (0 < st.currentRound.id → st.currentRound.resolved = false →
      st.currentRound.startedAt = 0 →
      validateResolutionErr st now = some .RoundNotStarted) ∧
    (0 < st.currentRound.id → st.currentRound.resolved = false →
      0 < st.currentRound.startedAt → now < st.currentRound.endTime →
      validateResolutionErr st now = some .RoundStillActive) ∧
    (∀ e, sender = st.oracleAddress → validateResolutionErr st now = some e →
      resolveRound env st now sender winners usdcAmounts ethAmounts = .error e) ∧
    (∀ e, validateResolutionErr st now = some e →
      refundSoloRound env st now = .error e) ∧
    (∀ e, sender = st.owner → validateResolutionErr st now = some e →
      emergencyResolve env st now sender = .error e) ∧
    (sender = st.oracleAddress → validateResolutionErr st now = none →
      (st.roundPlayers st.currentRound.id).length < 2 →
      resolveRound env st now sender winners usdcAmounts ethAmounts
        = .error .NeedMorePlayers) ∧
    (validateResolutionErr st now = none →
      2 ≤ (st.roundPlayers st.currentRound.id).length →
      refundSoloRound env st now = .error .HasMultiplePlayers) ∧
    (∀ st' ts,
      (resolveRound env st now sender winners usdcAmounts ethAmounts = .ok (st', ts)
        ∨ refundSoloRound env st now = .ok (st', ts)
        ∨ emergencyResolve env st now sender = .ok (st', ts)) →
      ∀ env2 now2 sender2, ∀ w2 u2 e2 : List Nat,
        (∃ e, resolveRound env2 st' now2 sender2 w2 u2 e2 = .error e) ∧
        (∃ e, refundSoloRound env2 st' now2 = .error e) ∧
        (∃ e, emergencyResolve env2 st' now2 sender2 = .error e)) := by
  refine ⟨?_, ?_, ?_, ?_, ?_, ?_, ?_, ?_, ?_, ?_⟩
  · unfold validateResolutionErr
    split_ifs with g1 g2 g3 g4 <;> constructor <;> intro hh <;> try simp_all
    all_goals omega
  · intro g1 g2
    unfold validateResolutionErr
    rw [if_neg (by omega), if_pos g2]
  · intro g1 g2 g3
    unfold validateResolutionErr
    rw [if_neg (by omega), if_neg (by simp [g2]), if_pos g3]
  · intro g1 g2 g3 g4
    unfold validateResolutionErr
    rw [if_neg (by omega), if_neg (by simp [g2]), if_neg (by omega), if_pos g4]
  · intro e hso hv
    rw [resolveRound, if_neg (by simp [hso]), hv]
  · intro e hv
    rw [refundSoloRound, hv]
  · intro e hso hv
    rw [emergencyResolve, if_neg (by simp [hso]), hv]
  · intro hso hv hp
    rw [resolveRound, if_neg (by simp [hso]), hv, if_pos hp]
  · intro hv hp
    rw [refundSoloRound, hv, if_pos hp]
  · intro st' ts hok env2 now2 sender2 w2 u2 e2
    have hs : ∀ nn, (validateResolutionErr st' nn).isSome := by
      rcases hok with h | h | h
      · exact resolveRound_ok_post h
      · exact refundSoloRound_ok_post h
      · exact emergencyResolve_ok_post h
    exact ⟨resolveRound_err_aux env2 st' now2 sender2 w2 u2 e2 (hs now2),
      refundSoloRound_err_aux env2 st' now2 (hs now2),
      emergencyResolve_err_aux env2 st' now2 sender2 (hs now2)⟩

/-- Witness for C4: a pending round rejects with `RoundNotStarted`; an ended
two-player round rejects the solo path with `HasMultiplePlayers`; and after a
successful oracle resolution every later resolution call rejects. -/
theorem claim4_witness :
    validateResolutionErr stPending 50 = some .RoundNotStarted ∧
    refundSoloRound allOk stRes 5000 = .error .HasMultiplePlayers ∧
    (∃ e, refundSoloRound allOk
        (okState (resolveRound allOk stRes 5000 2 [5, 6] [50, 40] [2, 3]) initState) 99999
      = .error e) := by
  refine ⟨?_, ?_, ?_⟩
  · exact (claim4_resolution_gating allOk stPending 50 2 [] [] []).2.2.1
      (by decide) rfl rfl
  · exact (claim4_resolution_gating allOk stRes 5000 2 [5, 6] [50, 40]
      [2, 3]).2.2.2.2.2.2.2.2.1 (by decide) (by decide)
  · have h : resolveRound allOk stRes 5000 2 [5, 6] [50, 40] [2, 3]
        = .ok (okState (resolveRound allOk stRes 5000 2 [5, 6] [50, 40] [2, 3]) initState,
               okTransfers (resolveRound allOk stRes 5000 2 [5, 6] [50, 40] [2, 3])) := rfl
    exact ((claim4_resolution_gating allOk stRes 5000 2 [5, 6] [50, 40]
      [2, 3]).2.2.2.2.2.2.2.2.2 _ _ (Or.inl h) allOk 99999 9 [] [] []).2.1

lemma fund_ok_shape {st st' : State} {now sender amount : Nat}
    (h : fund st now sender amount = .ok st') :
    st' = { st with currentRound :=
      { st.currentRound with prizePool := st.currentRound.prizePool + amount } } := by
  unfold fund at h
  split_ifs at h
  injection h with h
  exact h.symm

lemma soloInv_step (r p base : Nat) (st : State) (op : Op) (hop : soloOp p op)
    (hinv : SoloInv r p base st) :
    SoloInv r p (base + fundAmount st op) (applyOp st op) := by
  obtain ⟨hid, hres, hsplit, heq, hpl⟩ := hinv
  cases op with
  | bidOp now sender k w a =>
    have hs : p = sender := ((hop : sender = p)).symm
    subst hs
    cases hb : bid st now p k w a with
    | error e =>
      have happ : applyOp st (Op.bidOp now p k w a) = st := by
        simp only [applyOp]
        rw [hb]
      have hfa : fundAmount st (Op.bidOp now p k w a) = 0 := rfl
      rw [happ, hfa, Nat.add_zero]
      exact ⟨hid, hres, hsplit, heq, hpl⟩
    | ok st1 =>
      have happ : applyOp st (Op.bidOp now p k w a) = st1 := by
        simp only [applyOp]
        rw [hb]
      have hfa : fundAmount st (Op.bidOp now p k w a) = 0 := rfl
      rw [happ, hfa, Nat.add_zero]
      have hfr := bid_ok_frame hb
      have hcut : a * st.splitBps / 10000 ≤ a := rake_le_pool a st.splitBps hsplit
      refine ⟨hfr.1.trans hid, hfr.2.1.trans hres, ?_, ?_, ?_⟩
      · rw [hfr.2.2.2.2.1]
        exact hsplit
      · have hnext := bid_ok_next hb
        have hprize := bid_ok_prize hb
        have hspent := bid_ok_totalSpent hb
        have hsp1 : st1.totalSpent r p = st.totalSpent r p + a := by
          rw [hspent, hid]
          simp [upd2]
        omega
      · have hplayers := bid_ok_players hb
        have hisP := bid_ok_isPlayer hb
        rw [hid] at hplayers hisP
        rcases hpl with ⟨hp1, hp2⟩ | ⟨hp1, hp2⟩
        · right
          rw [hplayers, hisP, if_neg (by simp [hp2]), if_neg (by simp [hp2])]
          constructor
          · simp [updL, hp1]
          · simp [updB]
        · right
          rw [hplayers, hisP, if_pos (by simp [hp2]), if_pos (by simp [hp2])]
          exact ⟨hp1, hp2⟩
  | fundOp now sender a =>
    cases hb : fund st now sender a with
    | error e =>
      have happ : applyOp st (Op.fundOp now sender a) = st := by
        simp only [applyOp]
        rw [hb]
      have hfa : fundAmount st (Op.fundOp now sender a) = 0 := by
        simp only [fundAmount]
        rw [hb]
      rw [happ, hfa, Nat.add_zero]
      exact ⟨hid, hres, hsplit, heq, hpl⟩
    | ok st1 =>
      have happ : applyOp st (Op.fundOp now sender a) = st1 := by
        simp only [applyOp]
        rw [hb]
      have hfa : fundAmount st (Op.fundOp now sender a) = a := by
        simp only [fundAmount]
        rw [hb]
      rw [happ, hfa, fund_ok_shape hb]
      refine ⟨hid, hres, hsplit, ?_, hpl⟩
      show st.nextPrizePool + (st.currentRound.prizePool + a)
        = base + a + st.totalSpent r p
      omega
  | receiveOp v =>
    have hfa : fundAmount st (Op.receiveOp v) = 0 := rfl
    have happ : applyOp st (Op.receiveOp v) = receiveEth st v := rfl
    rw [happ, hfa, Nat.add_zero]
    unfold receiveEth
    split_ifs <;> exact ⟨hid, hres, hsplit, heq, hpl⟩
  | startOp now sender t => exact ((hop : False)).elim
  | setCapOp sender c => exact ((hop : False)).elim

lemma soloInv_run (r p : Nat) (ops : List Op) : ∀ st base,
    (∀ op ∈ ops, soloOp p op) → SoloInv r p base st →
    SoloInv r p (base + fundsPaid st ops) (runOps st ops) := by
  induction ops with
  | nil =>
    intro st base hops hinv
    simpa [runOps, fundsPaid] using hinv
  | cons op ops ih =>
    intro st base hops hinv
    have h1 := soloInv_step r p base st op (hops op (by simp)) hinv
    have h2 := ih (applyOp st op) (base + fundAmount st op)
      (fun o ho => hops o (by simp [ho])) h1
    show SoloInv r p (base + (fundAmount st op + fundsPaid (applyOp st op) ops))
      (runOps (applyOp st op) ops)
    rw [← Nat.add_assoc]
    exact h2

lemma finishSolo_fields (st : State) (next pend now : Nat) :
    (finishSolo st next pend now).accumulatedRake = st.accumulatedRake ∧
    (MIN_AUTO_START ≤ next →
      (finishSolo st next pend now).currentRound.prizePool = next ∧
      (finishSolo st next pend now).currentRound.ethPrizePool = pend) ∧
    (next < MIN_AUTO_START →
      (finishSolo st next pend now).nextPrizePool = next ∧
      (finishSolo st next pend now).pendingEth = pend) := by
  unfold finishSolo autoAdvance createRound
  refine ⟨?_, ?_, ?_⟩
  · split_ifs <;> rfl
  · intro hx
    rw [if_pos (show MIN_AUTO_START ≤ next from hx)]
    exact ⟨rfl, rfl⟩
  · intro hx
    rw [if_neg (show ¬ MIN_AUTO_START ≤ next by omega)]
    exact ⟨rfl, rfl⟩

/-- C2: when a round with a single registered participant `p` — reached from
a fresh round by bids of `p` and outside `fund` / ether contributions — is
ended and solo-refunded, `p` is paid exactly their recorded total spend (no
fee is taken: the rake counter is untouched), the combined pool equation
`nextPrizePool + prizePool = seed + funding + totalSpent` shows the
carried-forward amount is exactly the original seed plus direct funding
(`p`'s own split contributions cancel), and the round's ETH pool is carried
forward unchanged into `pendingEth` (or into the auto-started next round when
the carried USDC reaches the auto-start threshold). -/
theorem claim2_solo_refund (st0 : State) (ops : List Op) (p now : Nat)
    (env : Env) (st' : State) (ts : List Transfer)
    (hops : ∀ op ∈ ops, soloOp p op)
    (hfresh1 : st0.nextPrizePool = 0)
    (hfresh2 : st0.totalSpent st0.currentRound.id p = 0)
    (hfresh3 : st0.roundPlayers st0.currentRound.id = [])
    (hfresh4 : st0.isPlayer st0.currentRound.id p = false)
    (hres : st0.currentRound.resolved = false)
    (hsplit : st0.splitBps ≤ 10000)
    (hone : ((runOps st0 ops).roundPlayers st0.currentRound.id).length = 1)
    (h : refundSoloRound env (runOps st0 ops) now = .ok (st', ts)) :
    paidTo ts .usdc p = (runOps st0 ops).totalSpent st0.currentRound.id p ∧
    (runOps st0 ops).nextPrizePool + (runOps st0 ops).currentRound.prizePool
      = (st0.currentRound.prizePool + fundsPaid st0 ops)
        + (runOps st0 ops).totalSpent st0.currentRound.id p ∧
    st'.accumulatedRake = (runOps st0 ops).accumulatedRake ∧
    (MIN_AUTO_START ≤ st0.currentRound.prizePool + fundsPaid st0 ops →
      st'.currentRound.prizePool = st0.currentRound.prizePool + fundsPaid st0 ops ∧
      st'.currentRound.ethPrizePool
        = (runOps st0 ops).pendingEth + (runOps st0 ops).currentRound.ethPrizePool) ∧
    (st0.currentRound.prizePool + fundsPaid st0 ops < MIN_AUTO_START →
      st'.nextPrizePool = st0.currentRound.prizePool + fundsPaid st0 ops ∧
      st'.pendingEth
        = (runOps st0 ops).pendingEth + (runOps st0 ops).currentRound.ethPrizePool) := by
  have hinv0 : SoloInv st0.currentRound.id p st0.currentRound.prizePool st0 :=
    ⟨rfl, hres, hsplit, by omega, Or.inl ⟨hfresh3, hfresh4⟩⟩
  have hinvF := soloInv_run st0.currentRound.id p ops st0 st0.currentRound.prizePool
    hops hinv0
  obtain ⟨hidF, hresF, hsplitF, heqF, hplF⟩ := hinvF
  have hpl : (runOps st0 ops).roundPlayers st0.currentRound.id = [p] := by
    rcases hplF with ⟨hp1, _⟩ | ⟨hp1, _⟩
    · rw [hp1] at hone
      simp at hone
    · exact hp1
  set stF := runOps st0 ops with hstF
  have hspent : stF.totalSpent st0.currentRound.id p
      ≤ stF.nextPrizePool + stF.currentRound.prizePool := by omega
  have hnu : ¬(stF.nextPrizePool + stF.currentRound.prizePool
      < stF.totalSpent st0.currentRound.id p) := by omega
  cases hv : validateResolutionErr stF now with
  | some e => simp [refundSoloRound, hv] at h
  | none =>
    simp only [refundSoloRound, hv] at h
    rw [hidF, hpl] at h
    rw [if_neg (show ¬ 2 ≤ ([p].length) by simp)] at h
    simp only [soloRefundCore] at h
    rw [hidF, hpl] at h
    rw [if_pos (show ([p].length) = 1 by simp)] at h
    simp only [List.getD_cons_zero] at h
    rw [if_neg hnu] at h
    split_ifs at h with htf hsp
    · injection h with h
      injection h with hA hB
      have hcar : stF.nextPrizePool + stF.currentRound.prizePool
          - stF.totalSpent st0.currentRound.id p
          = st0.currentRound.prizePool + fundsPaid st0 ops := by omega
      rw [hcar] at hA
      subst hA
      have hf := finishSolo_fields stF (st0.currentRound.prizePool + fundsPaid st0 ops)
        (stF.pendingEth + stF.currentRound.ethPrizePool) now
      refine ⟨?_, by omega, hf.1, hf.2.1, hf.2.2⟩
      rw [← hB]
      simp [paidTo]
    · injection h with h
      injection h with hA hB
      have hcar : stF.nextPrizePool + stF.currentRound.prizePool
          - stF.totalSpent st0.currentRound.id p
          = st0.currentRound.prizePool + fundsPaid st0 ops := by omega
      rw [hcar] at hA
      subst hA
      have hf := finishSolo_fields stF (st0.currentRound.prizePool + fundsPaid st0 ops)
        (stF.pendingEth + stF.currentRound.ethPrizePool) now
      refine ⟨?_, by omega, hf.1, hf.2.1, hf.2.2⟩
      rw [← hB]
      simp [paidTo]
      omega

/-- Witness for C2: player 5 bids 8 (split 70/30) and an outsider funds 7 on
a seed-100 round; the solo refund pays back exactly 8 and carries
100 + 7 = 107 forward as the next pool. -/
theorem claim2_witness :
    paidTo (okTransfers (refundSoloRound allOk (runOps stPending c2ops) 4000))
        Currency.usdc 5
      = (runOps stPending c2ops).totalSpent 1 5 ∧
    (okState (refundSoloRound allOk (runOps stPending c2ops) 4000) initState).nextPrizePool
      = 107 := by
  have h : refundSoloRound allOk (runOps stPending c2ops) 4000
      = .ok (okState (refundSoloRound allOk (runOps stPending c2ops) 4000) initState,
             okTransfers (refundSoloRound allOk (runOps stPending c2ops) 4000)) := rfl
  have hops : ∀ op ∈ c2ops, soloOp 5 op := by
    intro op hop
    simp only [c2ops, List.mem_cons, List.not_mem_nil, or_false] at hop
    rcases hop with rfl | rfl
    · exact rfl
    · exact trivial
  have hc := claim2_solo_refund stPending c2ops 5 4000 allOk _ _
    hops rfl rfl rfl rfl rfl (by decide) (by decide) h
  exact ⟨hc.1, (hc.2.2.2.2 (by decide)).1.trans (by decide)⟩

lemma div_add_div_le (a b c : Nat) : a / c + b / c ≤ (a + b) / c := by
  rcases Nat.eq_zero_or_pos c with hc | hc
  · subst hc
    simp
  · rw [Nat.le_div_iff_mul_le hc, Nat.add_mul]
    exact Nat.add_le_add (Nat.div_mul_le_self a c) (Nat.div_mul_le_self b c)

lemma sum_map_div_le (l : List Nat) (D T : Nat) :
    (l.map (fun s => D * s / T)).sum ≤ D * l.sum / T := by
  induction l with
  | nil => simp
  | cons x xs ih =>
    simp only [List.map_cons, List.sum_cons]
    calc D * x / T + (xs.map (fun s => D * s / T)).sum
        ≤ D * x / T + D * xs.sum / T := Nat.add_le_add_left ih _
      _ ≤ (D * x + D * xs.sum) / T := div_add_div_le _ _ _
      _ = D * (x + xs.sum) / T := by rw [Nat.mul_add]

lemma propAlloc_eq (pool s T : Nat) : propAlloc pool s T = pool * s / T := by
  unfold propAlloc
  rcases Nat.eq_zero_or_pos T with hT | hT
  · subst hT
    simp
  · rw [if_pos hT]

lemma claim_base_sum_le (pool : Nat) (spends : List Nat) :
    (spends.map (fun s => pool * s / spends.sum)).sum ≤ pool := by
  rcases Nat.eq_zero_or_pos spends.sum with hT | hT
  · simp [hT]
  · calc (spends.map (fun s => pool * s / spends.sum)).sum
        ≤ pool * spends.sum / spends.sum := sum_map_div_le _ _ _
      _ = pool := Nat.mul_div_cancel pool hT

lemma sum_set_add (l : List Nat) (i v : Nat) (h : i < l.length) :
    (l.set i v).sum + l.getD i 0 = l.sum + v := by
  induction l generalizing i with
  | nil => simp at h
  | cons x xs ih =>
    cases i with
    | zero =>
      simp [List.set]
      omega
    | succ n =>
      simp only [List.set, List.sum_cons, List.getD_cons_succ]
      have := ih n (by simpa using h)
      omega

lemma addDust_length (pool : Nat) (l : List Nat) : (addDust pool l).length = l.length := by
  unfold addDust
  split_ifs <;> simp

lemma addDust_sum (pool : Nat) (l : List Nat) (h1 : l.sum ≤ pool) (h2 : 0 < l.length) :
    (addDust pool l).sum = pool := by
  unfold addDust
  split_ifs with hc
  · have := sum_set_add l (l.length - 1)
      (l.getD (l.length - 1) 0 + (pool - l.sum)) (by omega)
    omega
  · omega

lemma addDust_getD_front (pool : Nat) (l : List Nat) (j : Nat) (hj : j + 1 < l.length) :
    (addDust pool l).getD j 0 = l.getD j 0 := by
  unfold addDust
  split_ifs with hc
  · rw [List.getD_eq_getElem?_getD, List.getElem?_set_ne (by omega),
      ← List.getD_eq_getElem?_getD]
  · rfl

lemma addDust_getD_last (pool : Nat) (l : List Nat) (i : Nat) (hi : i + 1 = l.length)
    (h1 : l.sum ≤ pool) :
    (addDust pool l).getD i 0 = l.getD i 0 + (pool - l.sum) := by
  unfold addDust
  split_ifs with hc
  · rw [List.getD_eq_getElem?_getD, show l.length - 1 = i by omega,
      List.getElem?_set_self (by omega)]
    simp
  · omega

lemma getD_map_nat (l : List Nat) (f : Nat → Nat) (j : Nat) (hj : j < l.length) :
    (l.map f).getD j 0 = f (l.getD j 0) := by
  induction l generalizing j with
  | nil => simp at hj
  | cons x xs ih =>
    cases j with
    | zero => rfl
    | succ n =>
      simp only [List.map_cons, List.getD_cons_succ]
      exact ih n (by simpa using hj)

/-- Joint specification of the proportional allocation plus last-entry dust,
for one pool over a list of spends. -/
lemma alloc_spec (pool : Nat) (spends : List Nat) (hne : 0 < spends.length) :
    (∀ j, j + 1 < spends.length →
      (addDust pool (spends.map (fun s => propAlloc pool s spends.sum))).getD j 0
        = pool * spends.getD j 0 / spends.sum) ∧
    (addDust pool (spends.map (fun s => propAlloc pool s spends.sum))).getD
        (spends.length - 1) 0
      = pool * spends.getD (spends.length - 1) 0 / spends.sum
        + (pool - (spends.map (fun s => pool * s / spends.sum)).sum) ∧
    (addDust pool (spends.map (fun s => propAlloc pool s spends.sum))).sum = pool := by
  have hbase : spends.map (fun s => propAlloc pool s spends.sum)
      = spends.map (fun s => pool * s / spends.sum) := by
    simp only [propAlloc_eq]
  rw [hbase]
  have hle : (spends.map (fun s => pool * s / spends.sum)).sum ≤ pool :=
    claim_base_sum_le pool spends
  have hlen : (spends.map (fun s => pool * s / spends.sum)).length = spends.length := by
    simp
  refine ⟨?_, ?_, ?_⟩
  · intro j hj
    rw [addDust_getD_front _ _ _ (by omega)]
    exact getD_map_nat spends _ j (by omega)
  · rw [addDust_getD_last _ _ (spends.length - 1) (by omega) hle]
    rw [getD_map_nat spends _ (spends.length - 1) (by omega)]
  · exact addDust_sum _ _ hle (by omega)

lemma sumPaid_append (ts1 ts2 : List Transfer) (c : Currency) :
    sumPaid (ts1 ++ ts2) c = sumPaid ts1 c + sumPaid ts2 c := by
  induction ts1 with
  | nil => simp [sumPaid]
  | cons t ts ih =>
    show (if t.currency = c then t.amount else 0) + sumPaid (ts ++ ts2) c
      = (if t.currency = c then t.amount else 0) + sumPaid ts c + sumPaid ts2 c
    rw [ih]
    omega

lemma payoutAll_allOk (u : Nat → Nat) (l : List (Nat × Nat × Nat)) :
    ∃ ts, payoutAll allOk u l = .ok (u, ts) ∧
      sumPaid ts .usdc = (l.map (fun t => t.2.1)).sum ∧
      sumPaid ts .eth = (l.map (fun t => t.2.2)).sum := by
  induction l generalizing u with
  | nil => exact ⟨[], rfl, rfl, rfl⟩
  | cons t rest ih =>
    obtain ⟨w, ua, ea⟩ := t
    obtain ⟨ts, hts, hu, he⟩ := ih u
    have hu1 : sumPaid (if 0 < ua then [⟨w, Currency.usdc, ua⟩] else []) Currency.usdc
        = ua := by
      split_ifs with hua
      · simp [sumPaid]
      · simp [sumPaid]
        omega
    have hu2 : sumPaid (if 0 < ua then [⟨w, Currency.usdc, ua⟩] else []) Currency.eth
        = 0 := by
      split_ifs <;> simp [sumPaid]
    by_cases hea : 0 < ea
    · refine ⟨(if 0 < ua then [⟨w, .usdc, ua⟩] else []) ++ ⟨w, .eth, ea⟩ :: ts, ?_, ?_, ?_⟩
      · simp only [payoutAll]
        rw [if_neg (by simp [allOk]), if_pos hea, if_pos (by simp [allOk]), hts]
      · rw [sumPaid_append, hu1]
        simp only [sumPaid, List.map_cons, List.sum_cons, hu]
        simp
      · rw [sumPaid_append, hu2]
        simp only [sumPaid, List.map_cons, List.sum_cons, he]
        simp
    · refine ⟨(if 0 < ua then [⟨w, .usdc, ua⟩] else []) ++ ts, ?_, ?_, ?_⟩
      · simp only [payoutAll]
        rw [if_neg (by simp [allOk]), if_neg hea, hts]
      · rw [sumPaid_append, hu1]
        simp only [List.map_cons, List.sum_cons, hu]
      · rw [sumPaid_append, hu2]
        simp only [List.map_cons, List.sum_cons, he]
        omega

lemma zip_map_proj (players us es : List Nat) :
    us.length = players.length → es.length = players.length →
    ((players.zip (us.zip es)).map (fun t => t.2.1)) = us ∧
    ((players.zip (us.zip es)).map (fun t => t.2.2)) = es := by
  induction players generalizing us es with
  | nil =>
    intro h1 h2
    rw [List.length_eq_zero.mp h1, List.length_eq_zero.mp h2]
    exact ⟨rfl, rfl⟩
  | cons p ps ih =>
    intro h1 h2
    cases us with
    | nil => simp at h1
    | cons x xs =>
      cases es with
      | nil => simp at h2
      | cons y ys =>
        have := ih xs ys (by simpa using h1) (by simpa using h2)
        simp [List.zip_cons_cons, this.1, this.2]

lemma emergencyUsdcAllocs_eq (st : State) :
    emergencyUsdcAllocs st
      = addDust
          (st.currentRound.prizePool - st.currentRound.prizePool * st.rakeBps / 10000)
          (((st.roundPlayers st.currentRound.id).map
              (st.totalSpent st.currentRound.id)).map
            (fun s => propAlloc
              (st.currentRound.prizePool
                - st.currentRound.prizePool * st.rakeBps / 10000) s
              (((st.roundPlayers st.currentRound.id).map
                (st.totalSpent st.currentRound.id)).sum))) := by
  simp only [emergencyUsdcAllocs, List.map_map]
  rfl

lemma emergencyEthAllocs_eq (st : State) :
    emergencyEthAllocs st
      = addDust st.currentRound.ethPrizePool
          (((st.roundPlayers st.currentRound.id).map
              (st.totalSpent st.currentRound.id)).map
            (fun s => propAlloc st.currentRound.ethPrizePool s
              (((st.roundPlayers st.currentRound.id).map
                (st.totalSpent st.currentRound.id)).sum))) := by
  simp only [emergencyEthAllocs, List.map_map]
  rfl

lemma finishResolution_unclaimed (st : State) (rake : Nat) (u : Nat → Nat) (now : Nat) :
    (finishResolution st rake u now).unclaimedEth = u := by
  unfold finishResolution autoAdvance createRound
  split_ifs <;> rfl

set_option maxHeartbeats 1600000 in
lemma emergencyResolve_ok_ts {env : Env} {st st' : State} {now sender : Nat}
    {ts : List Transfer}
    (h : emergencyResolve env st now sender = .ok (st', ts))
    (h2 : 2 ≤ (st.roundPlayers st.currentRound.id).length) :
    ∃ u, payoutAll env st.unclaimedEth
      ((st.roundPlayers st.currentRound.id).zip
        ((emergencyUsdcAllocs st).zip (emergencyEthAllocs st))) = .ok (u, ts)
      ∧ st'.unclaimedEth = u := by
  simp only [emergencyResolve] at h
  repeat' first | split_ifs at h | split at h
  all_goals try exact Except.noConfusion h
  all_goals try omega
  injection h with h
  injection h with hA hB
  subst hB
  refine ⟨_, by assumption, ?_⟩
  rw [← hA]
  exact finishResolution_unclaimed _ _ _ _

/-- C1: an emergency resolution of an ended round with at least two
participants allocates each participant
`floor(distributable * totalSpent_i / totalSpent_all)` of the fee-adjusted
USDC pool, adds the rounding remainder to the last participant in
registration order, and pays out exactly the distributable pool in total;
the ETH pool is distributed by the same formula with its remainder also
assigned to the last participant.  The quantities `r`, `D`, `T`, `E` and
`players` are pinned by equation hypotheses so the statement reads off the
claim directly. -/
theorem claim1_emergency_proportional (st : State) (now sender : Nat)
    (st' : State) (ts : List Transfer) (r D T E : Nat) (players : List Nat)
    (hr : r = st.currentRound.id)
    (hplayers : players = st.roundPlayers r)
    (hT : T = (players.map (st.totalSpent r)).sum)
    (hD : D = st.currentRound.prizePool
      - st.currentRound.prizePool * st.rakeBps / 10000)
    (hE : E = st.currentRound.ethPrizePool)
    (h2 : 2 ≤ players.length)
    (h : emergencyResolve allOk st now sender = .ok (st', ts)) :
    (∀ j, j + 1 < players.length →
      (emergencyUsdcAllocs st).getD j 0
        = D * st.totalSpent r (players.getD j 0) / T) ∧
    (emergencyUsdcAllocs st).getD (players.length - 1) 0
      = D * st.totalSpent r (players.getD (players.length - 1) 0) / T
        + (D - (players.map (fun q => D * st.totalSpent r q / T)).sum) ∧
    (emergencyUsdcAllocs st).sum = D ∧
    sumPaid ts .usdc = D ∧
    (∀ j, j + 1 < players.length →
      (emergencyEthAllocs st).getD j 0
        = E * st.totalSpent r (players.getD j 0) / T) ∧
    (emergencyEthAllocs st).getD (players.length - 1) 0
      = E * st.totalSpent r (players.getD (players.length - 1) 0) / T
        + (E - (players.map (fun q => E * st.totalSpent r q / T)).sum) ∧
    (emergencyEthAllocs st).sum = E ∧
    sumPaid ts .eth = E := by
  subst hr hplayers hT hD hE
  set r := st.currentRound.id with hrdef
  set players := st.roundPlayers r with hpdef
  set spends := players.map (st.totalSpent r) with hsdef
  set D := st.currentRound.prizePool
    - st.currentRound.prizePool * st.rakeBps / 10000 with hDdef
  set E := st.currentRound.ethPrizePool with hEdef
  have hlensp : spends.length = players.length := by simp [hsdef]
  have hne : 0 < spends.length := by omega
  have hspecU := alloc_spec D spends hne
  have hspecE := alloc_spec E spends hne
  have hUeq : emergencyUsdcAllocs st
      = addDust D (spends.map (fun s => propAlloc D s spends.sum)) :=
    emergencyUsdcAllocs_eq st
  have hEeq : emergencyEthAllocs st
      = addDust E (spends.map (fun s => propAlloc E s spends.sum)) :=
    emergencyEthAllocs_eq st
  have hmapU : spends.map (fun s => D * s / spends.sum)
      = players.map (fun q => D * st.totalSpent r q / spends.sum) := by
    rw [hsdef, List.map_map]
    rfl
  have hmapE : spends.map (fun s => E * s / spends.sum)
      = players.map (fun q => E * st.totalSpent r q / spends.sum) := by
    rw [hsdef, List.map_map]
    rfl
  have hUlen : (emergencyUsdcAllocs st).length = players.length := by
    rw [hUeq, addDust_length]
    simp [hlensp]
  have hElen : (emergencyEthAllocs st).length = players.length := by
    rw [hEeq, addDust_length]
    simp [hlensp]
  have hsum : ∀ c : Currency, sumPaid ts c
      = (((players.zip ((emergencyUsdcAllocs st).zip (emergencyEthAllocs st))).map
          (fun t => if c = .usdc then t.2.1 else t.2.2)).sum) := by
    intro c
    obtain ⟨ts3, hp3, hu3, he3⟩ := payoutAll_allOk st.unclaimedEth
      (players.zip ((emergencyUsdcAllocs st).zip (emergencyEthAllocs st)))
    obtain ⟨u4, hpts, hu4u⟩ := emergencyResolve_ok_ts h
      (show 2 ≤ (st.roundPlayers st.currentRound.id).length from h2)
    have hcomb := hpts.symm.trans hp3
    injection hcomb with hcomb
    injection hcomb with hc1 hc2
    have hts : ts = ts3 := hc2
    subst hts
    cases c
    · rw [hu3]
      simp
    · rw [he3]
      simp
  refine ⟨?_, ?_, ?_, ?_, ?_, ?_, ?_, ?_⟩
  · intro j hj
    rw [hUeq, hspecU.1 j (by omega)]
    rw [getD_map_nat players _ j (by omega)]
  · rw [hUeq]
    have := hspecU.2.1
    rw [show spends.length - 1 = players.length - 1 by omega] at this
    rw [this, getD_map_nat players _ (players.length - 1) (by omega), hmapU]
  · rw [hUeq, hspecU.2.2]
  · rw [hsum .usdc]
    have hz := zip_map_proj players (emergencyUsdcAllocs st) (emergencyEthAllocs st)
      hUlen hElen
    calc ((players.zip ((emergencyUsdcAllocs st).zip (emergencyEthAllocs st))).map
          (fun t => if Currency.usdc = .usdc then t.2.1 else t.2.2)).sum
        = ((players.zip ((emergencyUsdcAllocs st).zip (emergencyEthAllocs st))).map
          (fun t => t.2.1)).sum := by simp
      _ = (emergencyUsdcAllocs st).sum := by rw [hz.1]
      _ = D := by rw [hUeq, hspecU.2.2]
  · intro j hj
    rw [hEeq, hspecE.1 j (by omega)]
    rw [getD_map_nat players _ j (by omega)]
  · rw [hEeq]
    have := hspecE.2.1
    rw [show spends.length - 1 = players.length - 1 by omega] at this
    rw [this, getD_map_nat players _ (players.length - 1) (by omega), hmapE]
  · rw [hEeq, hspecE.2.2]
  · rw [hsum .eth]
    have hz := zip_map_proj players (emergencyUsdcAllocs st) (emergencyEthAllocs st)
      hUlen hElen
    calc ((players.zip ((emergencyUsdcAllocs st).zip (emergencyEthAllocs st))).map
          (fun t => if Currency.eth = .usdc then t.2.1 else t.2.2)).sum
        = ((players.zip ((emergencyUsdcAllocs st).zip (emergencyEthAllocs st))).map
          (fun t => t.2.2)).sum := by simp
      _ = (emergencyEthAllocs st).sum := by rw [hz.2]
      _ = E := by rw [hEeq, hspecE.2.2]

/-- Witness for C1: spends 30 and 10 on a 100-USDC, 5-ETH round with a 10%
rake give shares 67 and 22 of the 90 distributable, the dust unit going to
the last player (23), and exactly 90 USDC and 5 ETH are paid out. -/
theorem claim1_witness :
    (emergencyUsdcAllocs stRes).getD 1 0 = 23 ∧
    sumPaid (okTransfers (emergencyResolve allOk stRes 90010 1)) Currency.usdc = 90 ∧
    sumPaid (okTransfers (emergencyResolve allOk stRes 90010 1)) Currency.eth = 5 := by
  have h : emergencyResolve allOk stRes 90010 1
      = .ok (okState (emergencyResolve allOk stRes 90010 1) initState,
             okTransfers (emergencyResolve allOk stRes 90010 1)) := rfl
  have hc := claim1_emergency_proportional stRes 90010 1 _ _ 1 90 40 5 [5, 6]
    rfl rfl (by decide) (by decide) rfl (by decide) h
  exact ⟨hc.2.1.trans (by decide), hc.2.2.2.1, hc.2.2.2.2.2.2.2⟩

lemma paidTo_append (l1 l2 : List Transfer) (c : Currency) (a : Nat) :
    paidTo (l1 ++ l2) c a = paidTo l1 c a + paidTo l2 c a := by
  induction l1 with
  | nil => simp [paidTo]
  | cons t ts ih =>
    show (if t.currency = c ∧ t.recipient = a then t.amount else 0) + paidTo (ts ++ l2) c a
      = (if t.currency = c ∧ t.recipient = a then t.amount else 0) + paidTo ts c a
        + paidTo l2 c a
    rw [ih]
    omega

lemma paidTo_filterMap_usdc (l : List (Nat × Nat)) (a : Nat) :
    paidTo (l.filterMap
      (fun p => if 0 < p.2 then some (⟨p.1, Currency.usdc, p.2⟩ : Transfer) else none))
      Currency.eth a = 0 := by
  induction l with
  | nil => rfl
  | cons p ps ih =>
    simp only [List.filterMap_cons]
    split_ifs
    · simp [paidTo, ih]
    · exact ih

lemma payoutAll_eth_accounting (env : Env) (l : List (Nat × Nat × Nat)) :
    ∀ (u u' : Nat → Nat) (ts : List Transfer), payoutAll env u l = .ok (u', ts) →
    (∀ a, u' a = u a + failedEthTo env a l) ∧
    (∀ a, env.ethOk a = true → paidTo ts .eth a = ethOwedTo a l) ∧
    (∀ a, env.ethOk a = false → paidTo ts .eth a = 0) := by
  induction l with
  | nil =>
    intro u u' ts h
    injection h with h
    injection h with h1 h2
    subst h1
    subst h2
    exact ⟨fun a => by simp [failedEthTo], fun a _ => rfl, fun a _ => rfl⟩
  | cons t rest ih =>
    obtain ⟨w, ua, ea⟩ := t
    intro u u' ts h
    have husdT : ∀ a2, paidTo (if 0 < ua then [⟨w, Currency.usdc, ua⟩] else []) .eth a2
        = 0 := by
      intro a2
      split_ifs <;> simp [paidTo]
    simp only [payoutAll] at h
    by_cases hfail : 0 < ua ∧ env.usdcOk w = false
    · rw [if_pos hfail] at h
      exact Except.noConfusion h
    rw [if_neg hfail] at h
    by_cases hea : 0 < ea
    · rw [if_pos hea] at h
      by_cases hok : env.ethOk w = true
      · -- positive ether amount, send succeeds
        rw [if_pos hok] at h
        cases hp : payoutAll env u rest with
        | error e =>
          rw [hp] at h
          exact Except.noConfusion h
        | ok pr =>
          obtain ⟨u2, ts2⟩ := pr
          rw [hp] at h
          injection h with h
          injection h with hA hB
          subst hB
          obtain ⟨ih1, ih2, ih3⟩ := ih u u2 ts2 hp
          refine ⟨fun a => ?_, fun a ha => ?_, fun a ha => ?_⟩
          · rw [← hA, ih1 a]
            show u a + failedEthTo env a rest
              = u a + ((if w = a ∧ 0 < ea ∧ env.ethOk w = false then ea else 0)
                + failedEthTo env a rest)
            simp [hok]
          · rw [paidTo_append, husdT a]
            show 0 + ((if (Currency.eth = Currency.eth ∧ w = a) then ea else 0)
              + paidTo ts2 .eth a)
              = (if w = a then ea else 0) + ethOwedTo a rest
            rw [ih2 a ha]
            simp
          · rw [paidTo_append, husdT a]
            have hwa : ¬ w = a := by
              intro hcontra
              rw [hcontra] at hok
              rw [hok] at ha
              exact Bool.noConfusion ha
            show 0 + ((if (Currency.eth = Currency.eth ∧ w = a) then ea else 0)
              + paidTo ts2 .eth a) = 0
            rw [ih3 a ha]
            simp [hwa]
      · -- positive ether amount, send fails: parked in the unclaimed map
        rw [if_neg hok] at h
        cases hp : payoutAll env (upd1 u w (u w + ea)) rest with
        | error e =>
          rw [hp] at h
          exact Except.noConfusion h
        | ok pr =>
          obtain ⟨u2, ts2⟩ := pr
          rw [hp] at h
          injection h with h
          injection h with hA hB
          subst hB
          obtain ⟨ih1, ih2, ih3⟩ := ih (upd1 u w (u w + ea)) u2 ts2 hp
          have hokw : env.ethOk w = false := by
            cases hw : env.ethOk w
            · rfl
            · exact absurd hw hok
          refine ⟨fun a => ?_, fun a ha => ?_, fun a ha => ?_⟩
          · rw [← hA, ih1 a]
            show upd1 u w (u w + ea) a + failedEthTo env a rest
              = u a + ((if w = a ∧ 0 < ea ∧ env.ethOk w = false then ea else 0)
                + failedEthTo env a rest)
            by_cases hwa : a = w
            · subst hwa
              rw [show upd1 u a (u a + ea) a = u a + ea from by simp [upd1]]
              rw [if_pos ⟨rfl, hea, hokw⟩]
              omega
            · rw [show upd1 u w (u w + ea) a = u a from by simp [upd1, hwa]]
              rw [if_neg (fun hc => hwa hc.1.symm)]
              omega
          · rw [paidTo_append, husdT a]
            have hwa : ¬ w = a := by
              intro hcontra
              rw [hcontra] at hokw
              rw [hokw] at ha
              exact Bool.noConfusion ha
            show 0 + paidTo ts2 .eth a = (if w = a then ea else 0) + ethOwedTo a rest
            rw [ih2 a ha]
            simp [hwa]
          · rw [paidTo_append, husdT a]
            show 0 + paidTo ts2 .eth a = 0
            rw [ih3 a ha]
    · -- zero ether amount
      rw [if_neg hea] at h
      have hea0 : ea = 0 := by omega
      cases hp : payoutAll env u rest with
      | error e =>
        rw [hp] at h
        exact Except.noConfusion h
      | ok pr =>
        obtain ⟨u2, ts2⟩ := pr
        rw [hp] at h
        injection h with h
        injection h with hA hB
        subst hB
        obtain ⟨ih1, ih2, ih3⟩ := ih u u2 ts2 hp
        refine ⟨fun a => ?_, fun a ha => ?_, fun a ha => ?_⟩
        · rw [← hA, ih1 a]
          show u a + failedEthTo env a rest
            = u a + ((if w = a ∧ 0 < ea ∧ env.ethOk w = false then ea else 0)
              + failedEthTo env a rest)
          simp [hea0]
        · rw [paidTo_append, husdT a]
          show 0 + paidTo ts2 .eth a = (if w = a then ea else 0) + ethOwedTo a rest
          rw [ih2 a ha]
          simp [hea0]
        · rw [paidTo_append, husdT a]
          show 0 + paidTo ts2 .eth a = 0
          rw [ih3 a ha]

set_option maxHeartbeats 1600000 in
lemma resolveRound_ok_eth {env : Env} {st st' : State} {now sender : Nat}
    {w u e : List Nat} {ts : List Transfer}
    (h : resolveRound env st now sender w u e = .ok (st', ts))
    (hpos : 0 < st.currentRound.ethPrizePool) :
    ∃ uF ethTs, payoutAll env st.unclaimedEth ((w.zip e).map (fun p => (p.1, 0, p.2)))
        = .ok (uF, ethTs)
      ∧ st'.unclaimedEth = uF
      ∧ ∀ a, paidTo ts .eth a = paidTo ethTs .eth a := by
  simp only [resolveRound] at h
  repeat' first | split_ifs at h | split at h
  all_goals try exact Except.noConfusion h
  all_goals try omega
  injection h with h
  injection h with hA hB
  refine ⟨_, _, by assumption, ?_, ?_⟩
  · rw [← hA]
    exact finishResolution_unclaimed _ _ _ _
  · intro a
    rw [← hB, paidTo_append, paidTo_filterMap_usdc]
    omega

/-- C9 (amended): during resolution only the ETH leg has the
claimable-fallback — when a positive ETH payout to a recipient fails, the
amount is recorded in `unclaimedEth` for that recipient instead of blocking
the other transfers or the resolution (the round still finalises, and every
accepting recipient is paid their full ETH share), and the parked amount is
retrievable later via `claimEth`; a failing USDC `safeTransfer`, by
contrast, reverts the entire resolution call (see the counterexample to the
original claim, which asserted the fallback for USDC and ETH alike). -/
theorem claim9_eth_failure_parked (env : Env) (st : State) (now sender : Nat)
    (winners usdcAmounts ethAmounts : List Nat) (st' : State) (ts : List Transfer) :
    (resolveRound env st now sender winners usdcAmounts ethAmounts = .ok (st', ts) →
      0 < st.currentRound.ethPrizePool →
      (∀ a, st'.unclaimedEth a
        = st.unclaimedEth a
          + failedEthTo env a ((winners.zip ethAmounts).map (fun p => (p.1, 0, p.2)))) ∧
      (∀ a, env.ethOk a = true →
        paidTo ts .eth a
          = ethOwedTo a ((winners.zip ethAmounts).map (fun p => (p.1, 0, p.2)))) ∧
      (∀ a, env.ethOk a = false → paidTo ts .eth a = 0) ∧
      (∀ now2, (validateResolutionErr st' now2).isSome)) ∧
    (emergencyResolve env st now sender = .ok (st', ts) →
      2 ≤ (st.roundPlayers st.currentRound.id).length →
      (∀ a, st'.unclaimedEth a
        = st.unclaimedEth a + failedEthTo env a
            ((st.roundPlayers st.currentRound.id).zip
              ((emergencyUsdcAllocs st).zip (emergencyEthAllocs st)))) ∧
      (∀ now2, (validateResolutionErr st' now2).isSome)) ∧
    (∀ m, st.unclaimedEth sender = m → 0 < m → env.ethOk sender = true →
      ∃ st2, claimEth env st sender = .ok (st2, [⟨sender, .eth, m⟩])
        ∧ st2.unclaimedEth sender = 0) := by
  refine ⟨?_, ?_, ?_⟩
  · intro h hpos
    obtain ⟨uF, ethTs, hpay, hunc, hpp⟩ := resolveRound_ok_eth h hpos
    obtain ⟨hacc1, hacc2, hacc3⟩ := payoutAll_eth_accounting env _ _ _ _ hpay
    refine ⟨fun a => ?_, fun a ha => ?_, fun a ha => ?_, resolveRound_ok_post h⟩
    · rw [hunc]
      exact hacc1 a
    · rw [hpp a]
      exact hacc2 a ha
    · rw [hpp a]
      exact hacc3 a ha
  · intro h h2
    obtain ⟨uF, hpay, hunc⟩ := emergencyResolve_ok_ts h h2
    obtain ⟨hacc1, _, _⟩ := payoutAll_eth_accounting env _ _ _ _ hpay
    refine ⟨fun a => ?_, emergencyResolve_ok_post h⟩
    rw [hunc]
    exact hacc1 a
  · intro m hm hpos hok
    refine ⟨{ st with unclaimedEth := upd1 st.unclaimedEth sender 0 }, ?_, ?_⟩
    · unfold claimEth
      rw [if_neg (by omega), if_neg (by simp [hok]), hm]
    · simp [upd1]

/-- C9 counterexample to the claim as stated: with a recipient whose USDC
transfer fails, the whole oracle resolution reverts with `TransferFailed` —
nothing is parked as claimable and the other recipient is blocked too, so
the claimable-fallback does not hold for USDC. -/
theorem claim9_counterexample :
    resolveRound envBadUsdc stRes 5000 2 [5, 6] [50, 40] [2, 3]
      = .error .TransferFailed := rfl

/-- Witness for C9: with recipient 6 rejecting ether, the oracle resolution
still succeeds, parks 3 wei for recipient 6 in `unclaimedEth`, and a later
`claimEth` pays it out and zeroes the balance. -/
theorem claim9_witness :
    (okState (resolveRound envBadEth stRes 5000 2 [5, 6] [50, 40] [2, 3])
        initState).unclaimedEth 6 = 3 ∧
    (∃ st2, claimEth allOk
        (okState (resolveRound envBadEth stRes 5000 2 [5, 6] [50, 40] [2, 3]) initState) 6
      = .ok (st2, [⟨6, .eth, 3⟩]) ∧ st2.unclaimedEth 6 = 0) := by
  have h : resolveRound envBadEth stRes 5000 2 [5, 6] [50, 40] [2, 3]
      = .ok (okState (resolveRound envBadEth stRes 5000 2 [5, 6] [50, 40] [2, 3]) initState,
             okTransfers (resolveRound envBadEth stRes 5000 2 [5, 6] [50, 40] [2, 3])) := rfl
  constructor
  · have hc := ((claim9_eth_failure_parked envBadEth stRes 5000 2 [5, 6] [50, 40]
      [2, 3] _ _).1 h (by decide)).1 6
    exact hc.trans (by decide)
  · exact (claim9_eth_failure_parked allOk
      (okState (resolveRound envBadEth stRes 5000 2 [5, 6] [50, 40] [2, 3]) initState)
      0 6 [] [] [] initState []).2.2 3 (by decide) (by decide) rfl

end ContextWar
